import Mathlib

/-!
Package myhttp: a shallow embedding of the request/response layer.

The development follows the three files of package `myhttp`
(`server.go`, `request.go`, `response.go`) and the demo `server.go`.

* A Go `string` is a finite sequence of bytes; it is modelled as a list of
  byte values (`Str`).  `len` is the list length, slicing is `take`/`drop`.
* A Go `map[string]T` is modelled as an association list with at most one
  entry per key (`GoMap T`); lookups, stores and deletes keep that shape.
* Code that can return a Go `error` or stop with a run-time panic returns an
  `Outcome`.
* What the environment decides is a parameter: the library sort (`SortFunc`),
  the order in which a `range` loop visits a map (`RangeOrder`), the text of
  `time.Now()` and the result of `conn.Write`.
* `int` has 64 bits and `make` accepts lengths up to `maxAlloc`; running out
  of memory below that bound is not modelled.
-/

set_option autoImplicit false

namespace MyHTTP

/-! ## Strings -/

/-- A Go string: a sequence of bytes. -/
abbrev Str := List Nat

/-- The bytes of an ASCII literal. -/
def ascii (s : String) : Str := s.toList.map Char.toNat

/-- The Go `error` values that the package returns or passes through. -/
inductive GoErr where
  /-- Value `io.EOF`. -/
  | EOF
  /-- Value `io.ErrUnexpectedEOF`. -/
  | ErrUnexpectedEOF
  /-- Any other failure of the connection (reset, timeout). -/
  | transport
  /-- The error "Failed to find 3 parts in HTTP start line." -/
  | startLine
  /-- The `strconv.ErrSyntax` failure of `Atoi`. -/
  | ErrSyntax
  /-- The `strconv.ErrRange` failure of `Atoi`. -/
  | ErrRange
  /-- The error "Pattern already set". -/
  | patternSet
  deriving DecidableEq, Repr

/-- Result of a Go call that may return an `error` or stop with a run-time panic. -/
inductive Outcome (α : Type) where
  | ok (a : α)
  | error (e : GoErr)
  | panic
  deriving DecidableEq, Repr

/-! ## Maps -/

/-- A Go map with string keys. -/
abbrev GoMap (β : Type) := List (Str × β)

/-- Lookup `m[k]` with the comma-ok form: `none` when the key is absent. -/
def mapGet {β : Type} : GoMap β → Str → Option β
  | [], _ => none
  | (k', v) :: m, k => if k' = k then some v else mapGet m k

/-- Store `m[k] = v`: overwrite the entry of `k`, or add one. -/
def mapSet {β : Type} : GoMap β → Str → β → GoMap β
  | [], k, v => [(k, v)]
  | (k', v') :: m, k, v => if k' = k then (k, v) :: m else (k', v') :: mapSet m k v

/-- Removal `delete(m, k)`. -/
def mapDelete {β : Type} : GoMap β → Str → GoMap β
  | [], _ => []
  | (k', v') :: m, k => if k' = k then mapDelete m k else (k', v') :: mapDelete m k

/-! ## Requests and responses (`request.go`, `response.go`) -/

/-- The `Request` record (the `Conn` handle is not part of the model). -/
structure Request where
  Method : Str
  Path : Str
  HTTPVersion : Str
  Body : Str
  Headers : GoMap Str

/-- The `Response` record; `Headers = none` is the nil map. -/
structure Response where
  HTTPVersion : Str
  StatusCode : Nat
  ReasonPhrase : Str
  Headers : Option (GoMap Str)
  Body : Str

/-- A handler `func(Request, *Response)`: it yields the mutated response, or panics
(`none`). -/
abbrev Handler := Request → Response → Option Response

/-! ## The router (`server.go`) -/

/-- Go's `cmp.Compare` on integers. -/
def cmpCompare (x y : Int) : Int :=
  if x < y then -1 else if x > y then 1 else 0

/-- The comparison closure handed to `slices.SortFunc` in `SetHandler`. -/
def longestFirst (a b : Str) : Int :=
  cmpCompare (b.length : Int) (a.length : Int) -- From longest to shortest string

/-- The type of `slices.SortFunc` at `[]string`. -/
abbrev SortFunc := List Str → (Str → Str → Int) → List Str

/-- What `slices.SortFunc` guarantees for the comparison of `SetHandler`: the
result is a rearrangement of the argument, ordered by the comparison.  (The
library sort is not stable, so nothing is said about equal lengths.) -/
def SortFuncOK (sortFunc : SortFunc) : Prop :=
  ∀ xs : List Str, (sortFunc xs longestFirst).Perm xs ∧
    (sortFunc xs longestFirst).Pairwise (fun a b => longestFirst a b ≤ 0)

/-- Inner loop of the library's insertion sort, on the sorted part listed from its
right end: the new element moves left while it compares strictly less than its
left neighbour. -/
def insertCmp (cmp : Str → Str → Int) (x : Str) : List Str → List Str
  | [] => [x]
  | y :: ys => if cmp x y < 0 then y :: insertCmp cmp x ys else x :: y :: ys

/-- Insertion sort as a `SortFunc` (the library sorts slices of at most 12 elements
this way): the elements enter the sorted part one after the other. -/
def insertionSortCmpFunc : SortFunc := fun xs cmp =>
  xs.foldl (fun sorted x => (insertCmp cmp x sorted.reverse).reverse) []

/-- The `Server` record, restricted to the fields the router and the connection
handler read. -/
structure Server where
  Name : Str
  Network : Str
  Address : Str
  handlers : GoMap Handler
  wildPatterns : List Str

/-- Constructor `NewTCPServer`. -/
def NewTCPServer (address : Str) : Server :=
  { Name := ascii "myhttp/0.0.1"
    Network := ascii "tcp"
    Address := address
    handlers := []
    wildPatterns := [] }

/-- Test `len(pattern) > 0 && pattern[len(pattern)-1:] == "/"`. -/
def endsInSlash (pattern : Str) : Bool :=
  decide (pattern.length > 0) && (pattern.drop (pattern.length - 1) == ascii "/")

/-- Method `SetHandler`: the server afterwards, and the returned `error` (`none` is
nil). -/
def SetHandler (sortFunc : SortFunc) (s : Server) (pattern : Str) (handler : Handler) :
    Server × Option GoErr :=
  match mapGet s.handlers pattern with
  | some _ => (s, some .patternSet)
  | none =>
    let s1 := { s with handlers := mapSet s.handlers pattern handler }
    -- Register wildcard pattern
    if endsInSlash pattern then
      ({ s1 with wildPatterns := sortFunc (s1.wildPatterns ++ [pattern]) longestFirst }, none)
    else
      (s1, none)

/-- The range loop of `UnsetHandler`.  The range expression is evaluated once, so the
loop visits the indices `i` of the slice as it was at entry (`todo` of them are
left) and reads `arr[i]` from the shared backing array `arr`, while
`s.wildPatterns` is the first `len` elements of that array.  On a match,
`append(s.wildPatterns[:i], s.wildPatterns[i+1:]...)` moves the elements
`i+1 .. len-1` one place down inside the array and shortens the slice by one;
`s.wildPatterns[i+1:]` panics when `i+1 > len`. -/
def unsetLoop (pattern : Str) : Nat → Nat → List Str → Nat → Option (List Str)
  | 0, _, arr, len => some (arr.take len)
  | todo + 1, i, arr, len =>
    if arr[i]? = some pattern then
      if i + 1 ≤ len then
        unsetLoop pattern todo (i + 1)
          (arr.take i ++ (arr.take len).drop (i + 1) ++ arr.drop (len - 1)) (len - 1)
      else none
    else unsetLoop pattern todo (i + 1) arr len

/-- Method `UnsetHandler`; `none` when the slice expression in the loop panics. -/
def UnsetHandler (s : Server) (pattern : Str) : Option Server :=
  let handlers := mapDelete s.handlers pattern
  match unsetLoop pattern s.wildPatterns.length 0 s.wildPatterns s.wildPatterns.length with
  | some w => some { s with handlers := handlers, wildPatterns := w }
  | none => none

/-- Go's `strings.HasPrefix`. -/
def HasPrefix (s pre : Str) : Bool := pre.isPrefixOf s

/-- The built-in handler `Default404Handler`. -/
def Default404Handler : Handler := fun _request response =>
  some { response with
    HTTPVersion := ascii "HTTP/1.1"
    StatusCode := 404
    ReasonPhrase := ascii "Not Found"
    Headers := some [(ascii "Content-Length", ascii "0")] }

/-- The range loop of `findHandler` over `wildPatterns`: at the first pattern that
is a prefix of the path it returns `s.handlers[pattern]`, which is the nil
function (`none`) when the key is missing. -/
def findWild (handlers : GoMap Handler) (path : Str) : List Str → Option (Option Handler)
  | [] => none
  | pattern :: rest =>
    if HasPrefix path pattern then some (mapGet handlers pattern)
    else findWild handlers path rest

/-- Method `findHandler`; `none` is the nil function value. -/
def findHandler (s : Server) (request : Request) : Option Handler :=
  -- Exact matches always first
  match mapGet s.handlers request.Path with
  | some handler => some handler
  | none =>
    -- Then wildcard matches
    match findWild s.handlers request.Path s.wildPatterns with
    | some h => h
    | none => some Default404Handler

/-- The route table after a sequence of `SetHandler` calls on a new server, the
returned errors being dropped as in the demo `main`. -/
def registerAll (sortFunc : SortFunc) (address : Str) (regs : List (Str × Handler)) : Server :=
  regs.foldl (fun s r => (SetHandler sortFunc s r.1 r.2).1) (NewTCPServer address)

/-- The route tables that the exported methods can produce. -/
inductive Reachable (sortFunc : SortFunc) : Server → Prop where
  | new (address : Str) : Reachable sortFunc (NewTCPServer address)
  | set (s : Server) (pattern : Str) (handler : Handler) :
      Reachable sortFunc s → Reachable sortFunc (SetHandler sortFunc s pattern handler).1
  | unset (s s' : Server) (pattern : Str) :
      Reachable sortFunc s → UnsetHandler s pattern = some s' → Reachable sortFunc s'

/-- The handler given in the first `SetHandler` call for `pattern` of a call
sequence. -/
def firstRegistered (regs : List (Str × Handler)) (pattern : Str) : Option Handler :=
  (regs.find? (fun r => decide (r.1 = pattern))).map (fun r => r.2)

/-- The route-table invariant: the wildcard list has no duplicates, holds exactly the
registered patterns that end in a slash, and is ordered from longest to shortest. -/
def RouteInv (s : Server) : Prop :=
  s.wildPatterns.Nodup ∧
  (∀ p, p ∈ s.wildPatterns ↔ (mapGet s.handlers p).isSome = true ∧ endsInSlash p = true) ∧
  s.wildPatterns.Pairwise (fun a b => b.length ≤ a.length)

/-! ## Response serialisation (`response.go`) -/

/-- Decimal digits of a natural number (`strconv.FormatUint(n, 10)`). -/
def FormatUint (n : Nat) : Str := (Nat.toDigits 10 n).map Char.toNat

/-- Go's `strconv.Itoa`. -/
def Itoa (i : Int) : Str :=
  if i < 0 then 45 :: FormatUint i.natAbs else FormatUint i.natAbs

/-- The line terminator `CRLF`. -/
def CRLF : Str := [13, 10]

/-- Method `WriteString` of a `strings.Builder` holding `sb`. -/
def WriteString (sb s : Str) : Str := sb ++ s

/-- The order in which a `range` loop visits the entries of a map. -/
abbrev RangeOrder := GoMap Str → List (Str × Str)

/-- A range loop visits every entry of the map exactly once. -/
def RangeOrderOK (order : RangeOrder) : Prop := ∀ m, (order m).Perm m

/-- The entries of a possibly nil map. -/
def entries (h : Option (GoMap Str)) : GoMap Str :=
  match h with
  | none => []
  | some m => m

/-- Method `String` of `Response`.  `StatusCode` is a `uint16`. -/
def Response.String (order : RangeOrder) (r : Response) : Str :=
  let sb : Str := []
  let sb := WriteString sb r.HTTPVersion
  let sb := WriteString sb (ascii " ")
  let sb := WriteString sb (FormatUint r.StatusCode)
  let sb := WriteString sb (ascii " ")
  let sb := WriteString sb r.ReasonPhrase
  let sb := WriteString sb CRLF
  let sb := (order (entries r.Headers)).foldl (fun sb kv =>
    let sb := WriteString sb kv.1
    let sb := WriteString sb (ascii ": ")
    let sb := WriteString sb kv.2
    WriteString sb CRLF) sb
  let sb := WriteString sb CRLF
  let sb := WriteString sb r.Body
  sb

/-- Method `Prep` of `Response`; `now` is `time.Now().Format(time.RFC1123)`. -/
def Response.Prep (now : Str) (r : Response) : Response :=
  let headers := match r.Headers with
    | none => []
    | some m => m
  let headers := match mapGet headers (ascii "Date") with
    | some _ => headers
    | none => mapSet headers (ascii "Date") now
  { r with Headers := some (mapSet headers (ascii "Content-Length") (Itoa (r.Body.length : Int))) }

/-- Method `EnsureReady` of `Response`: `true` when it returns nil. -/
def Response.EnsureReady (r : Response) : Bool :=
  if r.HTTPVersion.length = 0 then false
  else if r.StatusCode = 0 then false
  else if r.ReasonPhrase.length = 0 then false
  else true

/-- The serialisation the specification describes: status line, one line per header,
an empty line, the body. -/
def wireFormat (r : Response) (enum : List (Str × Str)) : Str :=
  (r.HTTPVersion ++ ascii " " ++ FormatUint r.StatusCode ++ ascii " " ++ r.ReasonPhrase ++ CRLF)
    ++ (enum.map (fun kv => kv.1 ++ ascii ": " ++ kv.2 ++ CRLF)).flatten
    ++ CRLF ++ r.Body

/-! ## Library string functions used by the parser -/

/-- UTF-8 encodings of the code points for which `unicode.IsSpace` holds: the six
ASCII ones, U+0085, U+00A0, U+1680, U+2000 to U+200A, U+2028, U+2029, U+202F,
U+205F and U+3000. -/
def spaceEncodings : List Str :=
  [[9], [10], [11], [12], [13], [32], [0xC2, 0x85], [0xC2, 0xA0], [0xE1, 0x9A, 0x80],
   [0xE2, 0x80, 0x80], [0xE2, 0x80, 0x81], [0xE2, 0x80, 0x82], [0xE2, 0x80, 0x83],
   [0xE2, 0x80, 0x84], [0xE2, 0x80, 0x85], [0xE2, 0x80, 0x86], [0xE2, 0x80, 0x87],
   [0xE2, 0x80, 0x88], [0xE2, 0x80, 0x89], [0xE2, 0x80, 0x8A], [0xE2, 0x80, 0xA8],
   [0xE2, 0x80, 0xA9], [0xE2, 0x80, 0xAF], [0xE2, 0x81, 0x9F], [0xE3, 0x80, 0x80]]

/-- Width in bytes of the white-space rune that `s` starts with, if it starts with
one.  (The decoder yields a white-space rune exactly on its encoding: overlong
forms and stray bytes decode to U+FFFD, which is not white space.) -/
def leadingSpace (s : Str) : Option Nat :=
  (spaceEncodings.find? (fun e => e.isPrefixOf s)).map List.length

/-- Width in bytes of the white-space rune that `s` ends with, if it ends with one. -/
def trailingSpace (s : Str) : Option Nat :=
  (spaceEncodings.find? (fun e => e.reverse.isPrefixOf s.reverse)).map List.length

/-- Removal of at most `n` leading white-space runes. -/
def trimLeft : Nat → Str → Str
  | 0, s => s
  | n + 1, s =>
    match leadingSpace s with
    | some w => trimLeft n (s.drop w)
    | none => s

/-- Removal of at most `n` trailing white-space runes. -/
def trimRight : Nat → Str → Str
  | 0, s => s
  | n + 1, s =>
    match trailingSpace s with
    | some w => trimRight n (s.take (s.length - w))
    | none => s

/-- Go's `strings.TrimSpace`: all leading and trailing white space removed.  A
string of `n` bytes holds at most `n` runes. -/
def TrimSpace (s : Str) : Str :=
  let s := trimLeft s.length s
  trimRight s.length s

/-- Worker of `Split`: `skip` counts the bytes of a separator still to be passed
over, `cur` holds the bytes of the current piece, last byte first. -/
def splitAux (sep : Str) : Str → Nat → Str → List Str
  | [], _, cur => [cur.reverse]
  | _ :: cs, skip + 1, cur => splitAux sep cs skip cur
  | c :: cs, 0, cur =>
    if sep.isPrefixOf (c :: cs) then cur.reverse :: splitAux sep cs (sep.length - 1) []
    else splitAux sep cs 0 (c :: cur)

/-- Go's `strings.Split(s, sep)` for a non-empty separator: the pieces of `s` between
the occurrences of `sep`, found from left to right without overlap. -/
def Split (s sep : Str) : List Str := splitAux sep s 0 []

/-- The digit loop of `strconv.ParseUint` in base 10 with 64 bits: a byte that is not
a digit is a syntax error, a value above `2^64 - 1` a range error, whichever
comes first from the left. -/
def parseUint : Str → Nat → Outcome Nat
  | [], n => .ok n
  | c :: cs, n =>
    if c < 48 ∨ 57 < c then .error .ErrSyntax
    else if 2 ^ 64 - 1 < n * 10 + (c - 48) then .error .ErrRange
    else parseUint cs (n * 10 + (c - 48))

/-- Go's `strconv.Atoi` for a 64-bit `int`: an optional sign followed by at least one
decimal digit, the value within the range of `int`. -/
def Atoi (s : Str) : Outcome Int :=
  match s with
  | [] => .error .ErrSyntax
  | c :: rest =>
    let digits := if c = 45 ∨ c = 43 then rest else s
    if digits = [] then .error .ErrSyntax
    else
      match parseUint digits 0 with
      | .panic => .panic
      | .error e => .error e
      | .ok n =>
        let v : Int := if c = 45 then -(n : Int) else (n : Int)
        if v < -(2 ^ 63 : Int) ∨ (2 ^ 63 : Int) - 1 < v then .error .ErrRange else .ok v

/-! ## The request parser (`request.go`) -/

/-- A buffered reader on a connection: the bytes the peer still delivers, and the
error that reading reports once they are used up (`io.EOF` when the peer has
closed the connection). -/
structure Reader where
  data : Str
  final : GoErr
  deriving DecidableEq, Repr

/-- The bytes of `data` up to and including the first `delim`, and the bytes after
it; `none` when `delim` does not occur. -/
def cutAfter (delim : Nat) : Str → Option (Str × Str)
  | [] => none
  | c :: cs =>
    if c = delim then some ([c], cs)
    else match cutAfter delim cs with
      | some (line, rest) => some (c :: line, rest)
      | none => none

/-- Method `ReadString` of `bufio.Reader`: the line read, the error (`none` is nil),
and the reader afterwards.  When the delimiter is missing it returns the bytes
read before the error together with the error. -/
def Reader.ReadString (r : Reader) (delim : Nat) : Str × Option GoErr × Reader :=
  match cutAfter delim r.data with
  | some (line, rest) => (line, none, { r with data := rest })
  | none => (r.data, some r.final, { r with data := [] })

/-- Largest slice length `make([]byte, n)` accepts on a 64-bit platform: above it
`make` panics.  Up to it the allocation is taken to succeed, although the
runtime stops the program when that much memory is not there. -/
def maxAlloc : Int := 2 ^ 48

/-- Go's `io.ReadFull` into a buffer of `n` bytes: the bytes read and the reader
afterwards, or the error. -/
def ReadFull (r : Reader) (n : Nat) : Outcome (Str × Reader) :=
  if n ≤ r.data.length then .ok (r.data.take n, { r with data := r.data.drop n })
  else if r.data.length > 0 ∧ r.final = .EOF then .error .ErrUnexpectedEOF
  else .error r.final

/-- Function `parseHTTPStartLine`: the request with its three fields set, and the
reader afterwards. -/
def parseHTTPStartLine (reader : Reader) (req : Request) : Outcome (Request × Reader) :=
  match reader.ReadString 10 with
  | (_, some err, _) => .error err
  | (startLine, none, reader) =>
    let startLineParts := Split (TrimSpace startLine) (ascii " ")
    match startLineParts with
    | [method, path, version] =>
      .ok ({ req with Method := method, Path := path, HTTPVersion := version }, reader)
    | _ => .error .startLine

/-- The loop of `parseHTTPHeaders`, for at most `fuel` iterations. -/
def parseHTTPHeadersLoop : Nat → Reader → GoMap Str → Outcome (GoMap Str × Reader)
  | 0, _, _ => .panic
  | fuel + 1, reader, headers =>
    match reader.ReadString 10 with
    | (line, err, reader) =>
      match (if line.length = 0 then err else none) with
      | some e => if e = .EOF then .ok (headers, reader) else .error e
      | none =>
        -- Handle both \r\n
        if line.length < 2 then .panic -- `line[len(line)-2]` is out of range
        else
          let line := if (line)[line.length - 2]? = some 13 then line.take (line.length - 2)
            else line.take (line.length - 1)
          -- End of headers
          if line = [] then .ok (headers, reader)
          else
            match Split line (ascii ": ") with
            | headerName :: headerValue :: _ =>
              parseHTTPHeadersLoop fuel reader (mapSet headers headerName headerValue)
            | _ => .panic -- `headerLine[1]` is out of range

/-- Function `parseHTTPHeaders`.  Every iteration of its loop but the last one
reads at least one byte, so `data.length + 1` iterations are never used up. -/
def parseHTTPHeaders (reader : Reader) : Outcome (GoMap Str × Reader) :=
  parseHTTPHeadersLoop (reader.data.length + 1) reader []

/-- Function `ReadRequest`, on a new buffered reader for the connection: the
request and the reader afterwards, or the returned error (no request). -/
def ReadRequest (conn : Reader) : Outcome (Request × Reader) :=
  let req : Request := { Method := [], Path := [], HTTPVersion := [], Body := [], Headers := [] }
  match parseHTTPStartLine conn req with
  | .panic => .panic
  | .error err => .error err
  | .ok (req, reader) =>
    match parseHTTPHeaders reader with
    | .panic => .panic
    | .error err => .error err
    | .ok (headers, reader) =>
      let req := { req with Headers := headers }
      -- Parse request body if Content-Length header is set
      match mapGet req.Headers (ascii "Content-Length") with
      | none => .ok (req, reader)
      | some contentLength =>
        match Atoi contentLength with
        | .panic => .panic
        | .error err => .error err
        | .ok contentLength =>
          if contentLength < 0 ∨ maxAlloc < contentLength then .panic -- `make` panics
          else
            match ReadFull reader contentLength.toNat with
            | .panic => .panic
            | .error err => .error err
            | .ok (buf, reader) => .ok ({ req with Body := buf }, reader)

/-! ## The connection handler (`server.go`) -/

/-- What one activation of `handleConn` does to the outside, in order. -/
inductive Event where
  /-- A line printed with `fmt.Println`. -/
  | log
  /-- The handler found for the request path is called. -/
  | invoke (path : Str)
  /-- Call `conn.Write` with these bytes. -/
  | write (bytes : Str)
  /-- Call `conn.Close()`. -/
  | close
  /-- The method calls itself for the next request on the connection. -/
  | recurse
  /-- A panic leaves the method. -/
  | crash
  deriving DecidableEq, Repr

/-- Method `InitResponse`. -/
def InitResponse (s : Server) : Response :=
  { HTTPVersion := ascii "HTTP/1.1"
    StatusCode := 200
    ReasonPhrase := ascii "OK"
    Headers := some
      [(ascii "Content-Type", ascii "text/html; charset=utf-8"),
       (ascii "Connection", ascii "keep-alive"),
       (ascii "Server", s.Name),
       (ascii "Content-Length", ascii "0")]
    Body := [] }

/-- Statement `response.Headers[k] = v`; writing to a nil map panics. -/
def setHeader (response : Response) (k v : Str) : Option Response :=
  match response.Headers with
  | none => none
  | some m => some { response with Headers := some (mapSet m k v) }

/-- One activation of method `handleConn`, up to its call of itself.  `writeErr` is
the error `conn.Write` returns; the deferred `conn.Close()` is the last
`close` event. -/
def handleConn (order : RangeOrder) (now : Str) (writeErr : Option GoErr) (s : Server)
    (conn : Reader) : List Event :=
  match ReadRequest conn with
  | .panic => [.close, .crash]
  | .error err => (if err ≠ .EOF then [.log] else []) ++ [.close, .close]
  | .ok (request, _) =>
    let handler := findHandler s request
    let response := InitResponse s
    let response :=
      if mapGet request.Headers (ascii "Connection") = some (ascii "close") then
        setHeader response (ascii "Connection") (ascii "close")
      else some response
    match handler, response with
    | _, none => [.close, .crash]
    | none, some _ => [.close, .crash]
    | some handler, some response =>
      match handler request response with
      | none => [.invoke request.Path, .close, .crash]
      | some response =>
        -- Prep, check, and send
        let response := response.Prep now
        match writeErr with
        | some _ => [.invoke request.Path, .write (response.String order), .log, .close]
        | none =>
          -- Recurse to handle keep-alive
          let connectionHeader := mapGet (entries response.Headers) (ascii "Connection")
          if connectionHeader = none ∨ connectionHeader = some (ascii "keep-alive") then
            [.invoke request.Path, .write (response.String order), .recurse, .close]
          else [.invoke request.Path, .write (response.String order), .close]

/-! ## The demo program (`server.go`) -/

/-- Handler `RootHandler`. -/
def RootHandler : Handler := fun req res =>
  if req.Path ≠ ascii "/" then Default404Handler req res else some res

/-- Handler `UserAgentHandler`; a missing key reads as the empty string. -/
def UserAgentHandler : Handler := fun req res =>
  some { res with Body := (mapGet req.Headers (ascii "User-Agent")).getD [] }

/-- Handler `EchoHandler`; `req.Path[6:]` panics on a path shorter than 6 bytes. -/
def EchoHandler : Handler := fun req res =>
  if req.Path.length < 6 then none else some { res with Body := req.Path.drop 6 }

/-- The route table that `main` builds. -/
def demoServer (sortFunc : SortFunc) : Server :=
  registerAll sortFunc (ascii "localhost:4221")
    [(ascii "/", RootHandler), (ascii "/user-agent", UserAgentHandler),
     (ascii "/echo/", EchoHandler)]

/-- The response that `Default404Handler` and `Prep` leave when the body is empty. -/
def reply404 (now : Str) : Response :=
  { HTTPVersion := ascii "HTTP/1.1"
    StatusCode := 404
    ReasonPhrase := ascii "Not Found"
    Headers := some [(ascii "Content-Length", ascii "0"), (ascii "Date", now)]
    Body := [] }

/-- No white-space rune occurs in `s`: none of the encodings is a block of
consecutive bytes of `s`. -/
def NoSpace (s : Str) : Prop := ∀ e ∈ spaceEncodings, ¬ e <:+: s

instance (s : Str) : Decidable (NoSpace s) := by
  unfold NoSpace
  infer_instance

/-- A header line as the peer sends it: name, colon and space, value, CR LF. -/
def headerLine (kv : Str × Str) : Str := kv.1 ++ ascii ": " ++ kv.2 ++ ascii "\r\n"

/-- A header section: the header lines followed by the empty line. -/
def headerBlock (hs : List (Str × Str)) : Str := (hs.map headerLine).flatten ++ ascii "\r\n"

/-- The request `ReadRequest` starts from (`new(Request)`). -/
def emptyRequest : Request :=
  { Method := [], Path := [], HTTPVersion := [], Body := [], Headers := [] }

/-- A body of one byte more than the largest slice `make` accepts. -/
def hugeBody : Str := List.replicate (2 ^ 48 + 1) 0

/-- The response `handleConn` hands to the handler: the one of `InitResponse`, with the
`Connection` header set to "close" when the request carries `Connection: close`. -/
def initialResponse (s : Server) (request : Request) : Option Response :=
  if mapGet request.Headers (ascii "Connection") = some (ascii "close") then
    setHeader (InitResponse s) (ascii "Connection") (ascii "close")
  else some (InitResponse s)

/-- The test `!ok || connectionHeader == "keep-alive"` of `handleConn` on the
response that was sent. -/
def continues (response : Response) : Prop :=
  mapGet (entries response.Headers) (ascii "Connection") = none ∨
    mapGet (entries response.Headers) (ascii "Connection") = some (ascii "keep-alive")

instance (response : Response) : Decidable (continues response) := by
  unfold continues
  infer_instance

/-- A handler that sets the `Connection` header of its response to "keep-alive". -/
def keepAliveHandler : Handler := fun _req res =>
  setHeader res (ascii "Connection") (ascii "keep-alive")

/-- The value on the last line of a header section that carries `name`. -/
def lastValue : List (Str × Str) → Str → Option Str
  | [], _ => none
  | kv :: hs, name =>
    match lastValue hs name with
    | some v => some v
    | none => if kv.1 = name then some kv.2 else none

/-- The status line that `String` writes first. -/
def statusLine (r : Response) : Str :=
  r.HTTPVersion ++ ascii " " ++ FormatUint r.StatusCode ++ ascii " " ++ r.ReasonPhrase ++ CRLF

/-- The body rule of `ReadRequest`: with a `Content-Length` header, that many bytes are
read as the body; without one the body is empty. -/
def readBody (headers : GoMap Str) (reader : Reader) : Outcome (Str × Reader) :=
  match mapGet headers (ascii "Content-Length") with
  | none => .ok ([], reader)
  | some contentLength =>
    match Atoi contentLength with
    | .panic => .panic
    | .error err => .error err
    | .ok contentLength =>
      if contentLength < 0 ∨ maxAlloc < contentLength then .panic
      else ReadFull reader contentLength.toNat

/-- The first piece of a header value when it is split at the separator: what
`parseHTTPHeaders` stores as the value. -/
def storedValue (value : Str) : Str := (Split value (ascii ": ")).headD []

/-! ## Maps and the route-table invariant -/

theorem mapGet_mapSet_self {β : Type} (m : GoMap β) (k : Str) (v : β) :
    mapGet (mapSet m k v) k = some v := by
  induction m with
  | nil => simp [mapSet, mapGet]
  | cons e m ih =>
    obtain ⟨k', v'⟩ := e
    by_cases h : k' = k <;> simp [mapSet, mapGet, h, ih]

theorem mapGet_mapSet_ne {β : Type} (m : GoMap β) (k k' : Str) (v : β) (h : k' ≠ k) :
    mapGet (mapSet m k v) k' = mapGet m k' := by
  induction m with
  | nil => simp [mapSet, mapGet, h.symm]
  | cons e m ih =>
    obtain ⟨k1, v1⟩ := e
    by_cases h1 : k1 = k
    · subst h1
      simp [mapSet, mapGet, h.symm]
    · simp [mapSet, mapGet, h1, ih]

theorem longestFirst_le_zero (a b : Str) : longestFirst a b ≤ 0 ↔ b.length ≤ a.length := by
  unfold longestFirst cmpCompare
  split_ifs <;> omega

theorem endsInSlash_iff (p : Str) : endsInSlash p = true ↔ ∃ q, p = q ++ [47] := by
  constructor
  · intro h
    simp only [endsInSlash, Bool.and_eq_true, decide_eq_true_eq, beq_iff_eq] at h
    refine ⟨p.take (p.length - 1), ?_⟩
    have h2 : p.drop (p.length - 1) = [47] := by rw [h.2]; decide
    rw [← h2, List.take_append_drop]
  · rintro ⟨q, rfl⟩
    simp [endsInSlash, ascii]

theorem RouteInv_new (address : Str) : RouteInv (NewTCPServer address) := by
  simp [RouteInv, NewTCPServer, mapGet]

theorem RouteInv_SetHandler (sortFunc : SortFunc) (hs : SortFuncOK sortFunc) (s : Server)
    (pattern : Str) (handler : Handler) (h : RouteInv s) :
    RouteInv (SetHandler sortFunc s pattern handler).1 := by
  obtain ⟨hnd, hmem, hsorted⟩ := h
  unfold SetHandler
  cases hg : mapGet s.handlers pattern with
  | some h0 => exact ⟨hnd, hmem, hsorted⟩
  | none =>
    have hkey : ∀ p, (mapGet (mapSet s.handlers pattern handler) p).isSome = true ↔
        (p = pattern ∨ (mapGet s.handlers p).isSome = true) := by
      intro p
      by_cases hp : p = pattern
      · subst hp; simp [mapGet_mapSet_self]
      · simp [mapGet_mapSet_ne _ _ _ _ hp, hp]
    by_cases he : endsInSlash pattern = true
    · simp only [he, if_true]
      obtain ⟨hperm, hpw⟩ := hs (s.wildPatterns ++ [pattern])
      have hnot : pattern ∉ s.wildPatterns := by
        intro hin
        have := ((hmem pattern).1 hin).1
        simp [hg] at this
      refine ⟨?_, ?_, ?_⟩
      · refine (List.Perm.nodup_iff hperm).2 ?_
        rw [List.nodup_append]
        refine ⟨hnd, List.nodup_singleton _, ?_⟩
        intro a ha hb
        simp at hb
        subst hb
        exact hnot ha
      · intro p
        show p ∈ sortFunc (s.wildPatterns ++ [pattern]) longestFirst ↔ _
        rw [hperm.mem_iff, hkey, List.mem_append, hmem]
        simp only [List.mem_singleton]
        constructor
        · rintro (⟨h1, h2⟩ | rfl)
          · exact ⟨Or.inr h1, h2⟩
          · exact ⟨Or.inl rfl, he⟩
        · rintro ⟨h1 | h1, h2⟩
          · exact Or.inr h1
          · exact Or.inl ⟨h1, h2⟩
      · exact hpw.imp (fun {a b} hab => (longestFirst_le_zero a b).1 hab)
    · simp only [he, Bool.false_eq_true, if_false]
      refine ⟨hnd, ?_, hsorted⟩
      intro p
      show p ∈ s.wildPatterns ↔ _
      rw [hmem, hkey]
      constructor
      · rintro ⟨h1, h2⟩
        exact ⟨Or.inr h1, h2⟩
      · rintro ⟨h1 | h1, h2⟩
        · subst h1; exact absurd h2 he
        · exact ⟨h1, h2⟩

theorem unsetLoop_succ_ne (pattern : Str) (todo i : Nat) (arr : List Str) (len : Nat)
    (h : arr[i]? ≠ some pattern) :
    unsetLoop pattern (todo + 1) i arr len = unsetLoop pattern todo (i + 1) arr len := by
  simp only [unsetLoop, if_neg h]

theorem unsetLoop_succ_eq (pattern : Str) (todo i : Nat) (arr : List Str) (len : Nat)
    (h : arr[i]? = some pattern) (hi : i + 1 ≤ len) :
    unsetLoop pattern (todo + 1) i arr len =
      unsetLoop pattern todo (i + 1)
        (arr.take i ++ (arr.take len).drop (i + 1) ++ arr.drop (len - 1)) (len - 1) := by
  simp only [unsetLoop, if_pos h, if_pos hi]

theorem unsetLoop_no_match (pattern : Str) (todo i : Nat) (arr : List Str) (len : Nat)
    (h : ∀ x ∈ arr.drop i, x ≠ pattern) :
    unsetLoop pattern todo i arr len = some (arr.take len) := by
  induction todo generalizing i with
  | zero => rfl
  | succ todo ih =>
    have hne : arr[i]? ≠ some pattern := by
      intro he
      have hi : i < arr.length := by
        by_contra hge
        rw [List.getElem?_eq_none (by omega)] at he
        exact Option.noConfusion he
      have hmem : arr[i] ∈ arr.drop i := by
        rw [List.drop_eq_getElem_cons hi]
        exact List.mem_cons_self _ _
      rw [List.getElem?_eq_getElem hi] at he
      exact h _ hmem (Option.some.inj he)
    rw [unsetLoop_succ_ne _ _ _ _ _ hne]
    apply ih
    intro x hx
    apply h
    have : arr.drop (i + 1) = (arr.drop i).drop 1 := by rw [List.drop_drop]
    rw [this] at hx
    exact List.mem_of_mem_drop hx

theorem unsetLoop_skip (pattern : Str) (pre : List Str) (hpre : pattern ∉ pre) (k : Nat)
    (front rest : List Str) (len : Nat) :
    unsetLoop pattern (pre.length + k) front.length (front ++ pre ++ rest) len =
      unsetLoop pattern k (front.length + pre.length) (front ++ pre ++ rest) len := by
  induction pre generalizing front with
  | nil => simp
  | cons a pre ih =>
    have ha : a ≠ pattern := fun h => hpre (h ▸ List.mem_cons_self _ _)
    have hpre' : pattern ∉ pre := fun h => hpre (List.mem_cons_of_mem _ h)
    have h1 : (front ++ a :: pre ++ rest)[front.length]? ≠ some pattern := by
      rw [List.append_assoc, List.getElem?_append_right (le_refl _)]
      simpa using ha
    have e1 : (a :: pre).length + k = (pre.length + k) + 1 := by
      simp only [List.length_cons]; omega
    rw [e1, unsetLoop_succ_ne _ _ _ _ _ h1]
    have h2 := ih hpre' (front ++ [a])
    have e2 : front ++ [a] ++ pre ++ rest = front ++ a :: pre ++ rest := by simp
    have e3 : (front ++ [a]).length = front.length + 1 := by simp
    have e4 : front.length + 1 + pre.length = front.length + (a :: pre).length := by
      simp only [List.length_cons]; omega
    rw [e2, e3, e4] at h2
    exact h2

theorem unsetLoop_nodup (pattern : Str) (wild : List Str) (hnd : wild.Nodup) :
    unsetLoop pattern wild.length 0 wild wild.length = some (wild.erase pattern) := by
  by_cases hmem : pattern ∈ wild
  · obtain ⟨pre, post, rfl, hpre⟩ := List.eq_append_cons_of_mem hmem
    have hpost : pattern ∉ post := by
      have := (List.nodup_append.1 hnd).2.1
      exact (List.nodup_cons.1 this).1
    have e1 : (pre ++ pattern :: post).length = pre.length + (post.length + 1) := by simp
    have h0 := unsetLoop_skip pattern pre hpre (post.length + 1) [] (pattern :: post)
      (pre.length + (post.length + 1))
    simp only [List.nil_append, List.length_nil, Nat.zero_add] at h0
    have h1 : (pre ++ pattern :: post)[pre.length]? = some pattern := by
      rw [List.getElem?_append_right (le_refl _)]; simp
    rw [e1, h0, unsetLoop_succ_eq _ _ _ _ _ h1 (by omega)]
    have e2 : pre.length + (post.length + 1) - 1 = pre.length + post.length := by omega
    have e3 : List.take (pre.length + (post.length + 1)) (pre ++ pattern :: post) =
        pre ++ pattern :: post := by
      apply List.take_of_length_le; simp
    have e4 : List.take pre.length (pre ++ pattern :: post) = pre := by simp
    have e5 : List.drop (pre.length + 1) (pre ++ pattern :: post) = post := by
      rw [← List.drop_drop]; simp
    rw [e2, e3, e4, e5, List.append_assoc]
    by_cases hp : post = []
    · subst hp
      simp [unsetLoop, List.erase_append_right _ hpre]
    · rw [unsetLoop_no_match]
      · rw [List.erase_append_right _ hpre, List.erase_cons_head, ← List.append_assoc,
          List.take_append_of_le_length (by simp)]
        congr 1
        apply List.take_of_length_le; simp
      · intro x hx
        have hx1 : x ∈ post ++ List.drop (pre.length + post.length) (pre ++ pattern :: post) := by
          have e6 : List.drop (pre.length + 1) (pre ++ (post ++
              List.drop (pre.length + post.length) (pre ++ pattern :: post))) =
              List.drop 1 (post ++ List.drop (pre.length + post.length)
                (pre ++ pattern :: post)) := by
            rw [← List.drop_drop]; simp
          rw [e6] at hx
          exact List.mem_of_mem_drop hx
        have hx2 : x ∈ post := by
          rcases List.mem_append.1 hx1 with h | h
          · exact h
          · have e7 : List.drop (pre.length + post.length) (pre ++ pattern :: post) =
                List.drop (post.length - 1) post := by
              have hl : 0 < post.length := List.length_pos.2 hp
              obtain ⟨n, hn⟩ : ∃ n, post.length = n + 1 := ⟨post.length - 1, by omega⟩
              rw [← List.drop_drop, List.drop_left, hn]
              simp
            rw [e7] at h
            exact List.mem_of_mem_drop h
        intro hxp
        exact hpost (hxp ▸ hx2)
  · rw [unsetLoop_no_match pattern _ 0 wild _ (by
      intro x hx h; subst h; exact hmem (by simpa using hx))]
    rw [List.take_of_length_le (le_refl _), List.erase_of_not_mem hmem]

theorem mapGet_mapDelete {β : Type} (m : GoMap β) (k k' : Str) :
    mapGet (mapDelete m k) k' = if k' = k then none else mapGet m k' := by
  induction m with
  | nil => simp [mapDelete, mapGet]
  | cons e m ih =>
    obtain ⟨k1, v1⟩ := e
    by_cases h1 : k1 = k
    · subst h1
      by_cases h2 : k' = k1
      · subst h2; simp [mapDelete, ih]
      · have h3 : ¬ k1 = k' := fun h => h2 h.symm
        simp [mapDelete, mapGet, ih, h2, h3]
    · by_cases h2 : k' = k
      · subst h2; simp [mapDelete, mapGet, ih, h1]
      · simp [mapDelete, mapGet, ih, h1, h2]

theorem RouteInv_UnsetHandler (s s' : Server) (pattern : Str) (h : RouteInv s)
    (hu : UnsetHandler s pattern = some s') : RouteInv s' := by
  obtain ⟨hnd, hmem, hsorted⟩ := h
  unfold UnsetHandler at hu
  rw [unsetLoop_nodup pattern s.wildPatterns hnd] at hu
  simp only [Option.some.injEq] at hu
  subst hu
  refine ⟨hnd.erase _, ?_, hsorted.sublist (List.erase_sublist _ _)⟩
  intro p
  show p ∈ s.wildPatterns.erase pattern ↔
    (mapGet (mapDelete s.handlers pattern) p).isSome = true ∧ endsInSlash p = true
  rw [hnd.mem_erase_iff, mapGet_mapDelete, hmem]
  by_cases hp : p = pattern
  · simp [hp]
  · simp [hp]

theorem RouteInv_of_Reachable (sortFunc : SortFunc) (hs : SortFuncOK sortFunc) (s : Server)
    (h : Reachable sortFunc s) : RouteInv s := by
  induction h with
  | new address => exact RouteInv_new address
  | set s pattern handler _ ih => exact RouteInv_SetHandler sortFunc hs s pattern handler ih
  | unset s s' pattern _ hu ih => exact RouteInv_UnsetHandler s s' pattern ih hu

theorem Reachable_foldl (sortFunc : SortFunc) (regs : List (Str × Handler)) (s : Server)
    (h : Reachable sortFunc s) :
    Reachable sortFunc (regs.foldl (fun s r => (SetHandler sortFunc s r.1 r.2).1) s) := by
  induction regs generalizing s with
  | nil => exact h
  | cons r regs ih => exact ih _ (Reachable.set s r.1 r.2 h)

theorem Reachable_registerAll (sortFunc : SortFunc) (address : Str)
    (regs : List (Str × Handler)) : Reachable sortFunc (registerAll sortFunc address regs) :=
  Reachable_foldl sortFunc regs _ (Reachable.new address)

theorem handlers_SetHandler (sortFunc : SortFunc) (s : Server) (pattern : Str)
    (handler : Handler) (k : Str) :
    mapGet (SetHandler sortFunc s pattern handler).1.handlers k =
      match mapGet s.handlers k with
      | some h => some h
      | none => if pattern = k then some handler else none := by
  unfold SetHandler
  cases hg : mapGet s.handlers pattern with
  | some h0 =>
    by_cases hk : pattern = k
    · subst hk; simp [hg]
    · cases mapGet s.handlers k <;> simp [hk]
  | none =>
    have key : mapGet (mapSet s.handlers pattern handler) k =
        match mapGet s.handlers k with
        | some h => some h
        | none => if pattern = k then some handler else none := by
      by_cases hk : pattern = k
      · subst hk; rw [mapGet_mapSet_self, hg]; simp
      · rw [mapGet_mapSet_ne _ _ _ _ (fun h => hk h.symm)]
        cases mapGet s.handlers k <;> simp [hk]
    by_cases he : endsInSlash pattern = true
    · simp only [he, if_true]; exact key
    · simp only [he, Bool.false_eq_true, if_false]; exact key

theorem handlers_foldl (sortFunc : SortFunc) (regs : List (Str × Handler)) (s : Server)
    (k : Str) :
    mapGet (regs.foldl (fun s r => (SetHandler sortFunc s r.1 r.2).1) s).handlers k =
      match mapGet s.handlers k with
      | some h => some h
      | none => firstRegistered regs k := by
  induction regs generalizing s with
  | nil =>
    simp only [List.foldl_nil]
    cases mapGet s.handlers k <;> simp [firstRegistered]
  | cons r regs ih =>
    rw [List.foldl_cons, ih, handlers_SetHandler]
    cases mapGet s.handlers k with
    | some h => rfl
    | none =>
      by_cases hk : r.1 = k
      · simp [hk, firstRegistered]
      · simp [hk, firstRegistered]

theorem handlers_registerAll (sortFunc : SortFunc) (address : Str)
    (regs : List (Str × Handler)) (k : Str) :
    mapGet (registerAll sortFunc address regs).handlers k = firstRegistered regs k := by
  unfold registerAll
  rw [handlers_foldl]
  rfl

theorem HasPrefix_iff (s pre : Str) : HasPrefix s pre = true ↔ pre <+: s := by
  unfold HasPrefix
  exact List.isPrefixOf_iff_prefix

theorem findWild_none (handlers : GoMap Handler) (path : Str) (wild : List Str)
    (h : ∀ q ∈ wild, ¬ q <+: path) : findWild handlers path wild = none := by
  induction wild with
  | nil => rfl
  | cons q wild ih =>
    have hq : HasPrefix path q = false := by
      rw [← Bool.not_eq_true, HasPrefix_iff]
      exact h q (List.mem_cons_self _ _)
    simp only [findWild, hq, Bool.false_eq_true, if_false]
    exact ih (fun q' hq' => h q' (List.mem_cons_of_mem _ hq'))

theorem findWild_longest (handlers : GoMap Handler) (path pattern : Str) (wild : List Str)
    (hsorted : wild.Pairwise (fun a b => b.length ≤ a.length))
    (hin : pattern ∈ wild) (hpre : pattern <+: path)
    (hmax : ∀ q ∈ wild, q <+: path → q.length ≤ pattern.length) :
    findWild handlers path wild = some (mapGet handlers pattern) := by
  induction wild with
  | nil => cases hin
  | cons q wild ih =>
    rw [List.pairwise_cons] at hsorted
    by_cases hq : q <+: path
    · have hq' : HasPrefix path q = true := (HasPrefix_iff _ _).2 hq
      simp only [findWild, hq', if_true]
      have hqp : q = pattern := by
        rcases List.mem_cons.1 hin with h | h
        · exact h.symm
        · have h1 := hsorted.1 pattern h
          have h2 := hmax q (List.mem_cons_self _ _) hq
          exact List.prefix_of_prefix_length_le hq hpre h2 |>.eq_of_length (le_antisymm h2 h1)
      rw [hqp]
    · have hq' : HasPrefix path q = false := by
        rw [← Bool.not_eq_true, HasPrefix_iff]; exact hq
      simp only [findWild, hq', Bool.false_eq_true, if_false]
      have hin' : pattern ∈ wild := by
        rcases List.mem_cons.1 hin with h | h
        · exact absurd (h ▸ hpre) hq
        · exact h
      exact ih hsorted.2 hin' (fun q' hq' => hmax q' (List.mem_cons_of_mem _ hq'))

/-! ## The router -/

theorem longestFirst_lt_zero (a b : Str) : longestFirst a b < 0 ↔ b.length < a.length := by
  unfold longestFirst cmpCompare
  split_ifs <;> omega

theorem insertCmp_perm (x : Str) (l : List Str) :
    (insertCmp longestFirst x l).Perm (x :: l) := by
  induction l with
  | nil => exact List.Perm.refl _
  | cons y ys ih =>
    unfold insertCmp
    split_ifs
    · exact (List.Perm.cons y ih).trans (List.Perm.swap x y ys)
    · exact List.Perm.refl _

theorem insertCmp_sorted (x : Str) (l : List Str)
    (h : l.Pairwise (fun a b => a.length ≤ b.length)) :
    (insertCmp longestFirst x l).Pairwise (fun a b => a.length ≤ b.length) := by
  induction l with
  | nil => simp [insertCmp]
  | cons y ys ih =>
    rw [List.pairwise_cons] at h
    unfold insertCmp
    split_ifs with hc
    · rw [longestFirst_lt_zero] at hc
      rw [List.pairwise_cons]
      refine ⟨?_, ih h.2⟩
      intro z hz
      rcases List.mem_cons.1 ((insertCmp_perm x ys).mem_iff.1 hz) with hzx | hzy
      · subst hzx; omega
      · exact h.1 z hzy
    · rw [longestFirst_lt_zero] at hc
      rw [List.pairwise_cons]
      refine ⟨?_, List.pairwise_cons.2 h⟩
      intro z hz
      rcases List.mem_cons.1 hz with hzy | hzy
      · subst hzy; omega
      · have := h.1 z hzy
        omega

theorem insertionSort_foldl (xs acc : List Str)
    (hacc : acc.reverse.Pairwise (fun a b => a.length ≤ b.length)) :
    (xs.foldl (fun sorted x => (insertCmp longestFirst x sorted.reverse).reverse) acc).Perm
        (acc ++ xs) ∧
      (xs.foldl (fun sorted x => (insertCmp longestFirst x sorted.reverse).reverse)
        acc).reverse.Pairwise (fun a b => a.length ≤ b.length) := by
  induction xs generalizing acc with
  | nil => simpa using hacc
  | cons x xs ih =>
    rw [List.foldl_cons]
    have h1 : ((insertCmp longestFirst x acc.reverse).reverse).reverse.Pairwise
        (fun a b => a.length ≤ b.length) := by
      rw [List.reverse_reverse]
      exact insertCmp_sorted x _ hacc
    obtain ⟨hp, hs⟩ := ih _ h1
    refine ⟨hp.trans ?_, hs⟩
    have h2 : ((insertCmp longestFirst x acc.reverse).reverse).Perm (acc ++ [x]) := by
      refine (List.reverse_perm _).trans ((insertCmp_perm x _).trans ?_)
      exact (List.Perm.cons x (List.reverse_perm acc)).trans (List.perm_append_singleton x acc).symm
    have h3 := List.Perm.append_right xs h2
    simpa using h3

theorem SortFuncOK_insertionSortCmpFunc : SortFuncOK insertionSortCmpFunc := by
  intro xs
  obtain ⟨hp, hs⟩ := insertionSort_foldl xs [] (by simp)
  refine ⟨by simpa using hp, ?_⟩
  have h := List.pairwise_reverse.1 hs
  exact h.imp (fun {a b} hab => (longestFirst_le_zero a b).2 hab)

/-- C1. On a route table built by `SetHandler` calls, a path that is not itself
registered resolves to the handler of the longest registered pattern that ends
in a slash and is a prefix of the path. -/
theorem findHandler_longest_wildcard (sortFunc : SortFunc) (hs : SortFuncOK sortFunc)
    (address : Str) (regs : List (Str × Handler)) (request : Request) (pattern : Str)
    (handler : Handler)
    (hexact : firstRegistered regs request.Path = none)
    (hreg : firstRegistered regs pattern = some handler)
    (hslash : endsInSlash pattern = true)
    (hpre : pattern <+: request.Path)
    (hmax : ∀ q, (firstRegistered regs q).isSome = true → endsInSlash q = true →
      q <+: request.Path → q.length ≤ pattern.length) :
    findHandler (registerAll sortFunc address regs) request = some handler := by
  have hinv := RouteInv_of_Reachable sortFunc hs _ (Reachable_registerAll sortFunc address regs)
  obtain ⟨_, hmem, hsorted⟩ := hinv
  have hget := handlers_registerAll sortFunc address regs
  unfold findHandler
  rw [hget, hexact]
  have hin : pattern ∈ (registerAll sortFunc address regs).wildPatterns := by
    rw [hmem, hget, hreg]; exact ⟨rfl, hslash⟩
  have hw := findWild_longest (registerAll sortFunc address regs).handlers request.Path pattern
    _ hsorted hin hpre (by
      intro q hq hqp
      have := (hmem q).1 hq
      rw [hget] at this
      exact hmax q this.1 this.2 hqp)
  simp only [hw, hget, hreg]

theorem findHandler_longest_wildcard_witness :
    findHandler (registerAll insertionSortCmpFunc (ascii "localhost:4221")
        [(ascii "/a/", RootHandler), (ascii "/ab/", UserAgentHandler),
         (ascii "/a/b/", EchoHandler)])
      { Method := ascii "GET", Path := ascii "/a/b/c", HTTPVersion := ascii "HTTP/1.1",
        Body := [], Headers := [] } = some EchoHandler :=
  findHandler_longest_wildcard insertionSortCmpFunc SortFuncOK_insertionSortCmpFunc _ _ _
    (ascii "/a/b/") EchoHandler (by rfl) (by rfl) (by decide) (by decide) (by
      intro q hq _ _
      have h5 : (ascii "/a/b/").length = 5 := by decide
      rw [h5]
      simp only [firstRegistered, List.find?] at hq
      split at hq
      · next h => have := of_decide_eq_true h; subst this; decide
      · split at hq
        · next h => have := of_decide_eq_true h; subst this; decide
        · split at hq
          · next h => have := of_decide_eq_true h; subst this; decide
          · simp at hq)

theorem findHandler_of_mapGet (s : Server) (request : Request) (handler : Handler)
    (h : mapGet s.handlers request.Path = some handler) :
    findHandler s request = some handler := by
  unfold findHandler
  rw [h]

/-- C2. A request path that is a registered pattern resolves to the handler stored
under that path, for every state of the route table; on a table built by
`SetHandler` calls this is the handler of the first call for that path,
whatever wildcard patterns were registered as well. -/
theorem findHandler_exact_match :
    (∀ (s : Server) (request : Request) (handler : Handler),
      mapGet s.handlers request.Path = some handler → findHandler s request = some handler) ∧
    (∀ (sortFunc : SortFunc) (address : Str) (regs : List (Str × Handler)) (request : Request)
      (handler : Handler), firstRegistered regs request.Path = some handler →
      findHandler (registerAll sortFunc address regs) request = some handler) := by
  refine ⟨findHandler_of_mapGet, ?_⟩
  intro sortFunc address regs request handler h
  apply findHandler_of_mapGet
  rw [handlers_registerAll]
  exact h

theorem findHandler_exact_match_witness :
    findHandler (registerAll insertionSortCmpFunc (ascii "localhost:4221")
        [(ascii "/echo/", EchoHandler), (ascii "/echo/exact", UserAgentHandler)])
      { Method := ascii "GET", Path := ascii "/echo/exact", HTTPVersion := ascii "HTTP/1.1",
        Body := [], Headers := [] } = some UserAgentHandler :=
  findHandler_exact_match.2 insertionSortCmpFunc _ _ _ UserAgentHandler (by rfl)

/-- C4. `SetHandler` returns an error exactly when the pattern is already a key of
the handler map, and then the server is unchanged; otherwise it returns nil and
the path equal to the pattern resolves to the new handler. -/
theorem SetHandler_duplicate (sortFunc : SortFunc) (s : Server) (pattern : Str)
    (handler : Handler) :
    ((SetHandler sortFunc s pattern handler).2 ≠ none ↔
      (mapGet s.handlers pattern).isSome = true) ∧
    ((mapGet s.handlers pattern).isSome = true →
      (SetHandler sortFunc s pattern handler).2 = some .patternSet ∧
      (SetHandler sortFunc s pattern handler).1 = s) ∧
    (mapGet s.handlers pattern = none →
      (SetHandler sortFunc s pattern handler).2 = none ∧
      ∀ request : Request, request.Path = pattern →
        findHandler (SetHandler sortFunc s pattern handler).1 request = some handler) := by
  refine ⟨?_, ?_, ?_⟩
  · unfold SetHandler
    cases hg : mapGet s.handlers pattern with
    | some h0 => simp
    | none => by_cases he : endsInSlash pattern = true <;> simp [he]
  · intro h
    unfold SetHandler
    cases hg : mapGet s.handlers pattern with
    | some h0 => simp
    | none => rw [hg] at h; cases h
  · intro hg
    constructor
    · unfold SetHandler
      rw [hg]
      by_cases he : endsInSlash pattern = true <;> simp [he]
    · intro request hp
      apply findHandler_of_mapGet
      rw [hp, handlers_SetHandler, hg]
      simp

theorem SetHandler_duplicate_witness :
    ((SetHandler insertionSortCmpFunc (demoServer insertionSortCmpFunc) (ascii "/echo/")
        RootHandler).2 = some .patternSet ∧
      (SetHandler insertionSortCmpFunc (demoServer insertionSortCmpFunc) (ascii "/echo/")
        RootHandler).1 = demoServer insertionSortCmpFunc) ∧
    (SetHandler insertionSortCmpFunc (demoServer insertionSortCmpFunc) (ascii "/files/")
        RootHandler).2 = none :=
  ⟨(SetHandler_duplicate insertionSortCmpFunc (demoServer insertionSortCmpFunc)
      (ascii "/echo/") RootHandler).2.1 (by rfl),
   ((SetHandler_duplicate insertionSortCmpFunc (demoServer insertionSortCmpFunc)
      (ascii "/files/") RootHandler).2.2 (by rfl)).1⟩

/-! ## Responses -/

theorem headerLines_foldl (enum : List (Str × Str)) (sb : Str) :
    enum.foldl (fun sb kv =>
      let sb := WriteString sb kv.1
      let sb := WriteString sb (ascii ": ")
      let sb := WriteString sb kv.2
      WriteString sb CRLF) sb =
    sb ++ (enum.map (fun kv => kv.1 ++ ascii ": " ++ kv.2 ++ CRLF)).flatten := by
  induction enum generalizing sb with
  | nil => simp
  | cons kv enum ih =>
    rw [List.foldl_cons, ih]
    simp [WriteString, List.append_assoc]

theorem String_eq_wireFormat (order : RangeOrder) (r : Response) :
    r.String order = wireFormat r (order (entries r.Headers)) := by
  unfold Response.String wireFormat
  dsimp only
  rw [headerLines_foldl]
  simp only [WriteString, List.nil_append, List.append_assoc]

theorem Itoa_natCast (n : Nat) : Itoa (n : Int) = FormatUint n := by
  unfold Itoa
  rw [if_neg (by omega)]
  simp

theorem Prep_headers (now : Str) (r : Response) :
    ∃ m, (r.Prep now).Headers = some m ∧
      mapGet m (ascii "Content-Length") = some (FormatUint r.Body.length) := by
  refine ⟨_, rfl, ?_⟩
  rw [mapGet_mapSet_self, Itoa_natCast]

/-- C5. After `Prep` the header map is not nil and its `Content-Length` entry is the
decimal representation of the number of bytes of the body, whatever the entry
was before; the body itself is unchanged.  A body of three bytes that encode
one character gets the value "3". -/
theorem Prep_content_length (now : Str) (r : Response) :
    (∃ m, (r.Prep now).Headers = some m ∧
      mapGet m (ascii "Content-Length") =
        some ((Nat.repr r.Body.length).toList.map Char.toNat)) ∧
    (r.Prep now).Body = r.Body ∧
    mapGet (entries ({ r with Body := [0xE2, 0x82, 0xAC] }.Prep now).Headers)
      (ascii "Content-Length") = some (ascii "3") := by
  refine ⟨Prep_headers now r, rfl, ?_⟩
  obtain ⟨m, hm, hg⟩ := Prep_headers now { r with Body := [0xE2, 0x82, 0xAC] }
  have e : FormatUint 3 = ascii "3" := by decide
  rw [hm]
  exact hg.trans (congrArg some e)

/-- C6. The text that `String` builds is the status line, one line for each entry the
range loop visits (each entry of the header map once), an empty line and the
body; it ends with the empty line and the body, and its length is the sum of
the lengths of these parts. -/
theorem String_wire_format (order : RangeOrder) (hord : RangeOrderOK order) (r : Response) :
    ∃ enum : List (Str × Str), enum.Perm (entries r.Headers) ∧
      r.String order =
        r.HTTPVersion ++ ascii " " ++ FormatUint r.StatusCode ++ ascii " " ++ r.ReasonPhrase
          ++ ascii "\r\n"
          ++ (enum.map (fun kv => kv.1 ++ ascii ": " ++ kv.2 ++ ascii "\r\n")).flatten
          ++ ascii "\r\n" ++ r.Body ∧
      (ascii "\r\n" ++ r.Body) <:+ r.String order ∧
      (r.String order).length =
        r.HTTPVersion.length + 1 + (FormatUint r.StatusCode).length + 1
          + r.ReasonPhrase.length + 2
          + (enum.map (fun kv => kv.1.length + 2 + kv.2.length + 2)).sum
          + 2 + r.Body.length := by
  have hcrlf : ascii "\r\n" = CRLF := by decide
  refine ⟨order (entries r.Headers), hord _, ?_, ?_, ?_⟩
  · rw [String_eq_wireFormat, hcrlf]
    simp [wireFormat, List.append_assoc]
  · rw [String_eq_wireFormat, hcrlf]
    unfold wireFormat
    rw [List.append_assoc]
    exact List.suffix_append _ _
  · rw [String_eq_wireFormat]
    unfold wireFormat
    have h1 : (ascii " ").length = 1 := by decide
    have h2 : CRLF.length = 2 := by decide
    have h3 : (ascii ": ").length = 2 := by decide
    have h4 : List.map (List.length ∘ fun kv : Str × Str => kv.1 ++ ascii ": " ++ kv.2 ++ CRLF)
        (order (entries r.Headers)) =
        List.map (fun kv => kv.1.length + 2 + kv.2.length + 2) (order (entries r.Headers)) :=
      List.map_congr_left (fun kv _ => by
        simp only [Function.comp, List.length_append, h2, h3])
    simp only [List.length_append, List.length_flatten, List.map_map, h1, h2, h4]

theorem String_wire_format_witness :
    (ascii "\r\n" ++ ascii "abc") <:+
      ({ HTTPVersion := ascii "HTTP/1.1", StatusCode := 200, ReasonPhrase := ascii "OK",
         Headers := some [(ascii "Content-Length", ascii "3")],
         Body := ascii "abc" } : Response).String id := by
  obtain ⟨_, _, _, h, _⟩ := String_wire_format id (fun m => List.Perm.refl m)
    { HTTPVersion := ascii "HTTP/1.1", StatusCode := 200, ReasonPhrase := ascii "OK",
      Headers := some [(ascii "Content-Length", ascii "3")], Body := ascii "abc" }
  exact h

theorem findHandler_default (sortFunc : SortFunc) (hs : SortFuncOK sortFunc) (s : Server)
    (hreach : Reachable sortFunc s) (request : Request)
    (hexact : mapGet s.handlers request.Path = none)
    (hwild : ∀ q, (mapGet s.handlers q).isSome = true → endsInSlash q = true →
      ¬ q <+: request.Path) :
    findHandler s request = some Default404Handler := by
  obtain ⟨_, hmem, _⟩ := RouteInv_of_Reachable sortFunc hs s hreach
  unfold findHandler
  rw [hexact]
  have hw := findWild_none s.handlers request.Path s.wildPatterns (by
    intro q hq
    have := (hmem q).1 hq
    exact hwild q this.1 this.2)
  simp only [hw]

theorem Prep_Default404 (now : Str) (req : Request) (r : Response) (hb : r.Body = []) :
    (Default404Handler req r).map (Response.Prep now) = some (reply404 now) := by
  have h1 : ¬ (ascii "Content-Length" = ascii "Date") := by decide
  have h2 : Itoa (0 : Int) = ascii "0" := by decide
  simp [Default404Handler, Response.Prep, reply404, mapGet, mapSet, h1, hb, h2]

theorem handleConn_default (order : RangeOrder) (now : Str) (writeErr : Option GoErr)
    (s : Server) (conn rd : Reader)
    (request : Request) (hread : ReadRequest conn = .ok (request, rd))
    (hfind : findHandler s request = some Default404Handler) :
    handleConn order now writeErr s conn =
      .invoke request.Path :: .write ((reply404 now).String order) ::
        (match writeErr with
          | some _ => [.log, .close]
          | none => [.recurse, .close]) := by
  have hk : ¬ (ascii "Content-Length" = ascii "Connection") := by decide
  have hd : ¬ (ascii "Date" = ascii "Connection") := by decide
  unfold handleConn
  rw [hread]
  simp only [hfind]
  by_cases hc : mapGet request.Headers (ascii "Connection") = some (ascii "close")
  · have h := Prep_Default404 now request
      { InitResponse s with Headers := some (mapSet
        [(ascii "Content-Type", ascii "text/html; charset=utf-8"),
          (ascii "Connection", ascii "keep-alive"), (ascii "Server", s.Name),
          (ascii "Content-Length", ascii "0")] (ascii "Connection") (ascii "close")) } rfl
    simp only [hc, if_true, setHeader, InitResponse]
    cases hh : Default404Handler request _ with
    | none => simp [Default404Handler] at hh
    | some r =>
      simp only [InitResponse, hh, Option.map_some', Option.some.injEq] at h
      cases writeErr <;> simp [h, reply404, entries, mapGet, hk, hd]
  · have h := Prep_Default404 now request (InitResponse s) rfl
    simp only [hc, if_false]
    cases hh : Default404Handler request (InitResponse s) with
    | none => simp [Default404Handler] at hh
    | some r =>
      simp only [hh, Option.map_some', Option.some.injEq] at h
      cases writeErr <;> simp [h, reply404, entries, mapGet, hk, hd]

theorem reply404_wire (order : RangeOrder) (hord : RangeOrderOK order) (now : Str) :
    ascii "HTTP/1.1 404 Not Found\r\n" <+: (reply404 now).String order ∧
      ascii "Content-Length: 0\r\n" <:+: (reply404 now).String order := by
  rw [String_eq_wireFormat]
  unfold wireFormat
  have h1 : ascii "HTTP/1.1" ++ ascii " " ++ FormatUint 404 ++ ascii " " ++ ascii "Not Found"
      ++ CRLF = ascii "HTTP/1.1 404 Not Found\r\n" := by
    decide
  have h0 : (reply404 now).HTTPVersion ++ ascii " " ++ FormatUint (reply404 now).StatusCode
      ++ ascii " " ++ (reply404 now).ReasonPhrase ++ CRLF = ascii "HTTP/1.1 404 Not Found\r\n" :=
    h1
  rw [h0]
  constructor
  · rw [List.append_assoc, List.append_assoc]
    exact List.prefix_append _ _
  · have hmem : (ascii "Content-Length", ascii "0") ∈ order (entries (reply404 now).Headers) := by
      rw [(hord _).mem_iff]
      simp [reply404, entries]
    have h2 : ascii "Content-Length: 0\r\n" ∈
        (order (entries (reply404 now).Headers)).map
          (fun kv => kv.1 ++ ascii ": " ++ kv.2 ++ CRLF) := by
      rw [List.mem_map]
      exact ⟨_, hmem, by decide⟩
    have h3 := List.infix_of_mem_flatten h2
    exact h3.trans ((List.suffix_append _ _).isInfix.trans
      ((List.prefix_append _ _).isInfix.trans (List.prefix_append _ _).isInfix))

/-- C3. On every reachable route table, a path that is not registered and has no
registered pattern ending in a slash as a prefix resolves to
`Default404Handler`.  That handler sets version "HTTP/1.1", status 404, reason
"Not Found" and the header map with the single entry Content-Length "0" on any
response.  The reply `handleConn` then writes starts with the status line
"HTTP/1.1 404 Not Found" and holds the line "Content-Length: 0". -/
theorem unmatched_path_not_found (sortFunc : SortFunc) (hs : SortFuncOK sortFunc) (s : Server)
    (hreach : Reachable sortFunc s) (request : Request)
    (hexact : mapGet s.handlers request.Path = none)
    (hwild : ∀ q, (mapGet s.handlers q).isSome = true → endsInSlash q = true →
      ¬ q <+: request.Path) :
    findHandler s request = some Default404Handler ∧
    (∀ (req : Request) (response : Response), Default404Handler req response =
      some { HTTPVersion := ascii "HTTP/1.1", StatusCode := 404,
             ReasonPhrase := ascii "Not Found",
             Headers := some [(ascii "Content-Length", ascii "0")],
             Body := response.Body }) ∧
    (∀ (order : RangeOrder), RangeOrderOK order →
      ∀ (now : Str) (writeErr : Option GoErr) (conn rd : Reader),
      ReadRequest conn = .ok (request, rd) →
      ∃ reply rest, handleConn order now writeErr s conn =
          .invoke request.Path :: .write reply :: rest ∧
        ascii "HTTP/1.1 404 Not Found\r\n" <+: reply ∧
        ascii "Content-Length: 0\r\n" <:+: reply) := by
  have hfind := findHandler_default sortFunc hs s hreach request hexact hwild
  refine ⟨hfind, fun _ _ => rfl, ?_⟩
  intro order hord now writeErr conn rd hread
  exact ⟨(reply404 now).String order, _,
    handleConn_default order now writeErr s conn rd request hread hfind,
    reply404_wire order hord now⟩

theorem unmatched_path_not_found_witness :
    findHandler (registerAll insertionSortCmpFunc (ascii "localhost:4221")
        [(ascii "/user-agent", UserAgentHandler), (ascii "/echo/", EchoHandler)])
      { Method := ascii "GET", Path := ascii "/nope", HTTPVersion := ascii "HTTP/1.1",
        Body := [], Headers := [] } = some Default404Handler :=
  (unmatched_path_not_found insertionSortCmpFunc SortFuncOK_insertionSortCmpFunc _
    (Reachable_registerAll insertionSortCmpFunc (ascii "localhost:4221")
      [(ascii "/user-agent", UserAgentHandler), (ascii "/echo/", EchoHandler)])
    { Method := ascii "GET", Path := ascii "/nope", HTTPVersion := ascii "HTTP/1.1",
      Body := [], Headers := [] } (by rfl) (by
      intro q hq _
      rw [handlers_registerAll] at hq
      simp only [firstRegistered, List.find?] at hq
      split at hq
      · next h => have := of_decide_eq_true h; subst this; decide
      · split at hq
        · next h => have := of_decide_eq_true h; subst this; decide
        · simp at hq)).1

/-! ## The request parser -/

theorem cutAfter_append (delim : Nat) (l rest : Str) (h : delim ∉ l) :
    cutAfter delim (l ++ delim :: rest) = some (l ++ [delim], rest) := by
  induction l with
  | nil => simp [cutAfter]
  | cons c l ih =>
    have hc : c ≠ delim := fun e => h (e ▸ List.mem_cons_self _ _)
    have hl : delim ∉ l := fun e => h (List.mem_cons_of_mem _ e)
    simp [cutAfter, hc, ih hl]

theorem cutAfter_none (delim : Nat) (l : Str) (h : delim ∉ l) : cutAfter delim l = none := by
  induction l with
  | nil => rfl
  | cons c l ih =>
    have hc : c ≠ delim := fun e => h (e ▸ List.mem_cons_self _ _)
    have hl : delim ∉ l := fun e => h (List.mem_cons_of_mem _ e)
    simp [cutAfter, hc, ih hl]

theorem ReadString_line (delim : Nat) (l rest : Str) (final : GoErr) (h : delim ∉ l) :
    Reader.ReadString { data := l ++ delim :: rest, final := final } delim =
      (l ++ [delim], none, { data := rest, final := final }) := by
  simp [Reader.ReadString, cutAfter_append delim l rest h]

theorem splitAux_cons_skip (sep : Str) (c : Nat) (cs : Str) (skip : Nat) (cur : Str) :
    splitAux sep (c :: cs) (skip + 1) cur = splitAux sep cs skip cur := rfl

theorem splitAux_cons_hit (sep : Str) (c : Nat) (cs cur : Str)
    (h : sep.isPrefixOf (c :: cs) = true) :
    splitAux sep (c :: cs) 0 cur = cur.reverse :: splitAux sep cs (sep.length - 1) [] := by
  simp only [splitAux, h, if_true]

theorem splitAux_cons_miss (sep : Str) (c : Nat) (cs cur : Str)
    (h : sep.isPrefixOf (c :: cs) = false) :
    splitAux sep (c :: cs) 0 cur = splitAux sep cs 0 (c :: cur) := by
  simp only [splitAux, h, Bool.false_eq_true, if_false]

theorem splitAux_skip (sep s rest cur : Str) :
    splitAux sep (s ++ rest) s.length cur = splitAux sep rest 0 cur := by
  induction s with
  | nil => rfl
  | cons c s ih =>
    rw [List.cons_append, List.length_cons, splitAux_cons_skip]
    exact ih

theorem splitAux_no_sep (sep s cur : Str) (h : ¬ sep <:+: s) :
    splitAux sep s 0 cur = [cur.reverse ++ s] := by
  induction s generalizing cur with
  | nil => simp [splitAux]
  | cons c s ih =>
    have h1 : sep.isPrefixOf (c :: s) = false := by
      rw [← Bool.not_eq_true, List.isPrefixOf_iff_prefix]
      exact fun hp => h hp.isInfix
    have h2 : ¬ sep <:+: s := fun hi => h (hi.trans (List.suffix_cons c s).isInfix)
    rw [splitAux_cons_miss _ _ _ _ h1, ih _ h2]
    simp

theorem splitAux_first (sep a b cur : Str) (hsep : sep ≠ [])
    (h : ∀ a1 a2, a = a1 ++ a2 → a2 ≠ [] → ¬ sep <+: a2 ++ sep ++ b) :
    splitAux sep (a ++ sep ++ b) 0 cur = (cur.reverse ++ a) :: splitAux sep b 0 [] := by
  induction a generalizing cur with
  | nil =>
    obtain ⟨c, sep', rfl⟩ := List.exists_cons_of_ne_nil hsep
    have h1 : (c :: sep').isPrefixOf (c :: (sep' ++ b)) = true := by
      rw [List.isPrefixOf_iff_prefix]
      exact List.prefix_append (c :: sep') b
    have h2 := splitAux_skip (c :: sep') sep' b []
    rw [List.nil_append, List.cons_append, splitAux_cons_hit _ _ _ _ h1]
    simp only [List.length_cons, Nat.add_sub_cancel, h2, List.append_nil]
  | cons x a ih =>
    have h1 : sep.isPrefixOf (x :: (a ++ sep ++ b)) = false := by
      rw [← Bool.not_eq_true, List.isPrefixOf_iff_prefix]
      have := h [] (x :: a) rfl (List.cons_ne_nil _ _)
      simpa [List.append_assoc] using this
    have h2 : ∀ a1 a2, a = a1 ++ a2 → a2 ≠ [] → ¬ sep <+: a2 ++ sep ++ b := by
      intro a1 a2 e hne
      exact h (x :: a1) a2 (by rw [e]; rfl) hne
    have h3 := ih (x :: cur) h2
    rw [List.cons_append, List.cons_append, splitAux_cons_miss _ _ _ _ h1, h3]
    simp

theorem Split_space (a b : Str) (h : 32 ∉ a) :
    Split (a ++ 32 :: b) [32] = a :: Split b [32] := by
  have := splitAux_first [32] a b [] (List.cons_ne_nil _ _) (by
    intro a1 a2 e hne hp
    obtain ⟨y, a2', rfl⟩ := List.exists_cons_of_ne_nil hne
    have hy : y = 32 := by
      rw [List.cons_append, List.cons_append] at hp
      exact (List.cons_prefix_cons.1 hp).1.symm
    apply h
    rw [e, hy]
    simp)
  simpa [Split] using this

theorem Split_space_last (v : Str) (h : 32 ∉ v) : Split v [32] = [v] := by
  have := splitAux_no_sep [32] v [] (by
    intro hi
    obtain ⟨s, t, e⟩ := hi
    apply h
    rw [← e]
    simp)
  simpa [Split] using this

theorem spaceEncodings_shape :
    ∀ e ∈ spaceEncodings, (∀ b ∈ e, 128 ≤ b) ∨ e.length = 1 := by decide

theorem spaceEncodings_last :
    ∀ e ∈ spaceEncodings, e.reverse ≠ [] ∧ (e.reverse.headD 0 < 128 → e.length = 1) := by
  decide

theorem leadingSpace_none (s : Str) (h : ∀ e ∈ spaceEncodings, ¬ e <+: s) :
    leadingSpace s = none := by
  unfold leadingSpace
  rw [Option.map_eq_none', List.find?_eq_none]
  intro e he
  rw [List.isPrefixOf_iff_prefix]
  exact h e he

theorem trailingSpace_none (s : Str) (h : ∀ e ∈ spaceEncodings, ¬ e <:+ s) :
    trailingSpace s = none := by
  unfold trailingSpace
  rw [Option.map_eq_none', List.find?_eq_none]
  intro e he
  rw [List.isPrefixOf_iff_prefix, List.reverse_prefix]
  exact h e he

theorem trailingSpace_ascii (x : Str) (c : Nat) (hc : c < 128) (hmem : [c] ∈ spaceEncodings) :
    trailingSpace (x ++ [c]) = some 1 := by
  unfold trailingSpace
  cases h : spaceEncodings.find? (fun e => e.reverse.isPrefixOf (x ++ [c]).reverse) with
  | none =>
    rw [List.find?_eq_none] at h
    have := h [c] hmem
    simp at this
  | some e =>
    have he := List.mem_of_find?_eq_some h
    have hp := List.find?_some h
    rw [List.isPrefixOf_iff_prefix, List.reverse_append, List.reverse_singleton,
      List.singleton_append] at hp
    have hl := spaceEncodings_last e he
    cases hr : e.reverse with
    | nil => exact absurd hr hl.1
    | cons d r =>
      rw [hr] at hl hp
      have hd : d = c := (List.cons_prefix_cons.1 hp).1
      rw [Option.map_some', hl.2 (by simpa [hd] using hc)]

theorem no_leading_space (m rest : Str) (c : Nat) (hm : NoSpace m) (hne : m ≠ [])
    (hc : c < 128) : ∀ e ∈ spaceEncodings, ¬ e <+: m ++ c :: rest := by
  intro e he hp
  rcases List.prefix_or_prefix_of_prefix hp (List.prefix_append m (c :: rest)) with h | h
  · exact hm e he h.isInfix
  · obtain ⟨e', rfl⟩ := h
    cases e' with
    | nil => exact hm _ he (by simp)
    | cons d e'' =>
      have h1 := (List.prefix_append_right_inj m).1 hp
      have hd : d = c := (List.cons_prefix_cons.1 h1).1
      rcases spaceEncodings_shape _ he with hs | hs
      · have := hs c (by rw [hd]; simp)
        omega
      · obtain ⟨x, m', rfl⟩ := List.exists_cons_of_ne_nil hne
        simp at hs

theorem no_trailing_space (pre v : Str) (c : Nat) (hv : NoSpace v) (hne : v ≠ [])
    (hc : c < 128) : ∀ e ∈ spaceEncodings, ¬ e <:+ pre ++ c :: v := by
  intro e he hp
  have hsuf : v <:+ pre ++ c :: v := ⟨pre ++ [c], by simp⟩
  rcases List.suffix_or_suffix_of_suffix hp hsuf with h | h
  · exact hv e he h.isInfix
  · obtain ⟨e', rfl⟩ := h
    obtain ⟨t, ht⟩ := hp
    have h0 : (t ++ e') ++ v = (pre ++ [c]) ++ v := by simpa using ht
    have h1 : t ++ e' = pre ++ [c] := List.append_cancel_right h0
    rcases List.eq_nil_or_concat e' with h2 | ⟨e'', d, rfl⟩
    · subst h2; exact hv _ he (by simp)
    · have hd : d = c := by
        have := congrArg List.getLast? h1
        simpa using this
      rcases spaceEncodings_shape _ he with hs | hs
      · have := hs c (by rw [hd]; simp)
        omega
      · obtain ⟨x, v', rfl⟩ := List.exists_cons_of_ne_nil hne
        simp at hs
        omega

theorem trimLeft_of_none (n : Nat) (s : Str) (h : leadingSpace s = none) : trimLeft n s = s := by
  cases n with
  | zero => rfl
  | succ n => simp only [trimLeft, h]

theorem trimRight_of_none (n : Nat) (s : Str) (h : trailingSpace s = none) :
    trimRight n s = s := by
  cases n with
  | zero => rfl
  | succ n => simp only [trimRight, h]

theorem trimRight_ascii (n : Nat) (x : Str) (c : Nat) (hc : c < 128)
    (hmem : [c] ∈ spaceEncodings) : trimRight (n + 1) (x ++ [c]) = trimRight n x := by
  simp only [trimRight, trailingSpace_ascii x c hc hmem]
  simp

theorem TrimSpace_crlf (line : Str) (h1 : leadingSpace (line ++ [13, 10]) = none)
    (h2 : trailingSpace line = none) : TrimSpace (line ++ [13, 10]) = line := by
  unfold TrimSpace
  simp only [trimLeft_of_none _ _ h1]
  have e1 : line ++ [13, 10] = (line ++ [13]) ++ [10] := by simp
  have e2 : (line ++ [13, 10]).length = line.length + 1 + 1 := by simp
  rw [e2, e1, trimRight_ascii _ _ 10 (by omega) (by decide),
    trimRight_ascii _ _ 13 (by omega) (by decide), trimRight_of_none _ _ h2]

theorem TrimSpace_lf (line : Str) (h1 : leadingSpace (line ++ [10]) = none)
    (h2 : trailingSpace line = none) : TrimSpace (line ++ [10]) = line := by
  unfold TrimSpace
  simp only [trimLeft_of_none _ _ h1]
  have e2 : (line ++ [10]).length = line.length + 1 := by simp
  rw [e2, trimRight_ascii _ _ 10 (by omega) (by decide), trimRight_of_none _ _ h2]

theorem NoSpace_not_mem (s : Str) (c : Nat) (hc : [c] ∈ spaceEncodings) (hs : NoSpace s) :
    c ∉ s := by
  intro hmem
  obtain ⟨a, b, rfl⟩ := List.append_of_mem hmem
  exact hs [c] hc ⟨a, b, by simp⟩

theorem parseHTTPStartLine_of_line (line term rest : Str) (final : GoErr) (req : Request)
    (m p v : Str) (hread : Reader.ReadString { data := line ++ term ++ rest, final := final } 10
      = (line ++ term, none, { data := rest, final := final }))
    (htrim : TrimSpace (line ++ term) = line)
    (hsplit : Split line [32] = [m, p, v]) :
    parseHTTPStartLine { data := line ++ term ++ rest, final := final } req =
      .ok ({ req with Method := m, Path := p, HTTPVersion := v },
        { data := rest, final := final }) := by
  have hsp : ascii " " = [32] := rfl
  unfold parseHTTPStartLine
  rw [hread]
  simp only [htrim, hsp, hsplit]

/-- C7. For non-empty `m` and `v` and any `p`, all free of white space, the start line
`m p v` terminated by CR LF or by a bare LF parses successfully and gives
`Method = m`, `Path = p` and `HTTPVersion = v`; the reader is left at the byte
after the line. -/
theorem parseHTTPStartLine_fields (m p v rest : Str) (final : GoErr) (req : Request)
    (hm : m ≠ []) (hv : v ≠ []) (hms : NoSpace m) (hps : NoSpace p) (hvs : NoSpace v) :
    parseHTTPStartLine
        { data := m ++ ascii " " ++ p ++ ascii " " ++ v ++ ascii "\r\n" ++ rest, final := final }
        req =
      .ok ({ req with Method := m, Path := p, HTTPVersion := v },
        { data := rest, final := final }) ∧
    parseHTTPStartLine
        { data := m ++ ascii " " ++ p ++ ascii " " ++ v ++ ascii "\n" ++ rest, final := final }
        req =
      .ok ({ req with Method := m, Path := p, HTTPVersion := v },
        { data := rest, final := final }) := by
  have hsp : ascii " " = [32] := rfl
  have hcrlf : ascii "\r\n" = [13, 10] := rfl
  have hlf : ascii "\n" = [10] := rfl
  have m32 := NoSpace_not_mem m 32 (by decide) hms
  have p32 := NoSpace_not_mem p 32 (by decide) hps
  have v32 := NoSpace_not_mem v 32 (by decide) hvs
  have m10 := NoSpace_not_mem m 10 (by decide) hms
  have p10 := NoSpace_not_mem p 10 (by decide) hps
  have v10 := NoSpace_not_mem v 10 (by decide) hvs
  have hline : m ++ ascii " " ++ p ++ ascii " " ++ v = m ++ 32 :: (p ++ 32 :: v) := by
    simp [hsp]
  have hsplit : Split (m ++ 32 :: (p ++ 32 :: v)) [32] = [m, p, v] := by
    rw [Split_space m _ m32, Split_space p _ p32, Split_space_last v v32]
  have hlead : ∀ t, leadingSpace (m ++ 32 :: (p ++ 32 :: v) ++ t) = none := by
    intro t
    apply leadingSpace_none
    have := no_leading_space m (p ++ 32 :: v ++ t) 32 hms hm (by omega)
    simpa using this
  have htrail : trailingSpace (m ++ 32 :: (p ++ 32 :: v)) = none := by
    apply trailingSpace_none
    have := no_trailing_space (m ++ 32 :: p) v 32 hvs hv (by omega)
    simpa using this
  have hno : (10 : Nat) ∉ m ++ 32 :: (p ++ 32 :: v) := by
    simp [m10, p10, v10]
  constructor
  · rw [hline, hcrlf]
    apply parseHTTPStartLine_of_line _ _ _ _ _ m p v ?_ (TrimSpace_crlf _ (hlead _) htrail) hsplit
    have := ReadString_line 10 (m ++ 32 :: (p ++ 32 :: v) ++ [13]) rest final (by
      simp [m10, p10, v10])
    simpa using this
  · rw [hline, hlf]
    apply parseHTTPStartLine_of_line _ _ _ _ _ m p v ?_ (TrimSpace_lf _ (hlead _) htrail) hsplit
    have := ReadString_line 10 (m ++ 32 :: (p ++ 32 :: v)) rest final hno
    simpa using this

theorem parseHTTPStartLine_fields_witness :
    parseHTTPStartLine
        { data := ascii "GET" ++ ascii " " ++ ascii "/echo/abc" ++ ascii " " ++ ascii "HTTP/1.1"
            ++ ascii "\r\n" ++ ascii "\r\n", final := .EOF }
        { Method := [], Path := [], HTTPVersion := [], Body := [], Headers := [] } =
      .ok ({ Method := ascii "GET", Path := ascii "/echo/abc", HTTPVersion := ascii "HTTP/1.1",
             Body := [], Headers := [] }, { data := ascii "\r\n", final := .EOF }) :=
  (parseHTTPStartLine_fields (ascii "GET") (ascii "/echo/abc") (ascii "HTTP/1.1")
    (ascii "\r\n") .EOF { Method := [], Path := [], HTTPVersion := [], Body := [], Headers := [] }
    (by decide) (by decide) (by decide) (by decide) (by decide)).1

theorem parseHTTPStartLine_malformed (conn : Reader) (req : Request)
    (h : (Split (TrimSpace (conn.ReadString 10).1) (ascii " ")).length ≠ 3) :
    ∃ err, parseHTTPStartLine conn req = .error err := by
  unfold parseHTTPStartLine
  rcases hr : conn.ReadString 10 with ⟨line, err, rd⟩
  rw [hr] at h
  cases err with
  | some e => exact ⟨e, rfl⟩
  | none =>
    simp only
    split
    · next m p v hs =>
      simp only at h
      rw [hs] at h
      exact absurd rfl h
    · exact ⟨.startLine, rfl⟩

/-- C8. When the first line of the input, trimmed, does not split on single spaces
into exactly 3 parts, `ReadRequest` returns an error and no request, and
`handleConn` only closes the connection (after printing the error unless it is
`io.EOF`): no handler is called and nothing is written. -/
theorem malformed_start_line (conn : Reader)
    (h : (Split (TrimSpace (conn.ReadString 10).1) (ascii " ")).length ≠ 3) :
    ∃ err, ReadRequest conn = .error err ∧
      ∀ (order : RangeOrder) (now : Str) (writeErr : Option GoErr) (s : Server),
        handleConn order now writeErr s conn =
          (if err ≠ .EOF then [Event.log] else []) ++ [Event.close, Event.close] ∧
        ∀ ev ∈ handleConn order now writeErr s conn, ev = Event.log ∨ ev = Event.close := by
  obtain ⟨err, he⟩ := parseHTTPStartLine_malformed conn
    { Method := [], Path := [], HTTPVersion := [], Body := [], Headers := [] } h
  have hr : ReadRequest conn = .error err := by
    unfold ReadRequest
    simp only [he]
  refine ⟨err, hr, ?_⟩
  intro order now writeErr s
  have hc : handleConn order now writeErr s conn =
      (if err ≠ .EOF then [Event.log] else []) ++ [Event.close, Event.close] := by
    unfold handleConn
    simp only [hr]
  refine ⟨hc, ?_⟩
  rw [hc]
  intro ev hev
  by_cases hE : err = .EOF
  · simp [hE] at hev
    exact Or.inr hev
  · simp [hE] at hev
    exact hev

theorem malformed_start_line_witness :
    ∃ err, ReadRequest { data := ascii "BADLINE\r\n", final := .EOF } = .error err ∧
      ∀ (order : RangeOrder) (now : Str) (writeErr : Option GoErr) (s : Server),
        handleConn order now writeErr s { data := ascii "BADLINE\r\n", final := .EOF } =
          (if err ≠ .EOF then [Event.log] else []) ++ [Event.close, Event.close] ∧
        ∀ ev ∈ handleConn order now writeErr s { data := ascii "BADLINE\r\n", final := .EOF },
          ev = Event.log ∨ ev = Event.close :=
  malformed_start_line { data := ascii "BADLINE\r\n", final := .EOF } (by decide)

theorem parseHTTPHeadersLoop_line (fuel : Nat) (l rest : Str) (final : GoErr)
    (headers : GoMap Str) (hl : 10 ∉ l) (hne : l ≠ []) :
    parseHTTPHeadersLoop (fuel + 1) { data := l ++ [13, 10] ++ rest, final := final } headers =
      match Split l (ascii ": ") with
      | headerName :: headerValue :: _ =>
        parseHTTPHeadersLoop fuel { data := rest, final := final }
          (mapSet headers headerName headerValue)
      | _ => .panic := by
  have hread : Reader.ReadString { data := l ++ [13, 10] ++ rest, final := final } 10 =
      (l ++ [13, 10], none, { data := rest, final := final }) := by
    have := ReadString_line 10 (l ++ [13]) rest final (by simp [hl])
    simpa using this
  have hlen : (l ++ [13, 10]).length = l.length + 2 := by simp
  have hidx : (l ++ [13, 10])[l.length]? = some 13 := by
    rw [List.getElem?_append_right (le_refl _)]; simp
  have hpos : 0 < l.length := List.length_pos.2 hne
  rw [parseHTTPHeadersLoop, hread]
  simp only [hlen, Nat.add_sub_cancel, hidx, if_true]
  have h0 : ¬ (l.length + 2 = 0) := by omega
  have h2 : ¬ (l.length + 2 < 2) := by omega
  have htake : List.take l.length (l ++ [13, 10]) = l := by simp
  simp only [h0, h2, if_false, htake, hne]

theorem parseHTTPHeadersLoop_blank (fuel : Nat) (rest : Str) (final : GoErr)
    (headers : GoMap Str) :
    parseHTTPHeadersLoop (fuel + 1) { data := [13, 10] ++ rest, final := final } headers =
      .ok (headers, { data := rest, final := final }) := by
  have hread : Reader.ReadString { data := [13, 10] ++ rest, final := final } 10 =
      ([13, 10], none, { data := rest, final := final }) := by
    have := ReadString_line 10 [13] rest final (by simp)
    simpa using this
  rw [parseHTTPHeadersLoop, hread]
  simp

theorem Split_header (name value : Str) (hn : ¬ ascii ": " <:+: name)
    (hv : ¬ ascii ": " <:+: value) :
    Split (name ++ ascii ": " ++ value) (ascii ": ") = [name, value] := by
  have hsep : ascii ": " = [58, 32] := rfl
  rw [hsep] at hn hv ⊢
  have h1 := splitAux_first [58, 32] name value [] (List.cons_ne_nil _ _) (by
    intro a1 a2 e hne hp
    obtain ⟨y, a2', rfl⟩ := List.exists_cons_of_ne_nil hne
    cases a2' with
    | nil => simp at hp
    | cons z a2'' =>
      have h2 : [58, 32] <+: y :: z :: (a2'' ++ [58, 32] ++ value) := by simpa using hp
      have hy := (List.cons_prefix_cons.1 h2).1
      have hz := (List.cons_prefix_cons.1 (List.cons_prefix_cons.1 h2).2).1
      apply hn
      rw [e, ← hy, ← hz]
      exact ⟨a1, a2'', by simp⟩)
  have h2 := splitAux_no_sep [58, 32] value [] hv
  unfold Split
  rw [h1, h2]
  simp

theorem cutAfter_some (d : Nat) (l a b : Str) (h : cutAfter d l = some (a, b)) :
    a ++ b = l := by
  induction l generalizing a with
  | nil => simp [cutAfter] at h
  | cons c l ih =>
    unfold cutAfter at h
    split_ifs at h with hc
    · simp only [Option.some.injEq, Prod.mk.injEq] at h
      obtain ⟨rfl, rfl⟩ := h
      rfl
    · cases hr : cutAfter d l with
      | none => rw [hr] at h; cases h
      | some p =>
        obtain ⟨a', b'⟩ := p
        rw [hr] at h
        simp only [Option.some.injEq, Prod.mk.injEq] at h
        obtain ⟨rfl, rfl⟩ := h
        rw [List.cons_append, ih a' hr]

theorem ReadString_data (r : Reader) (d : Nat) :
    (r.ReadString d).1 ++ (r.ReadString d).2.2.data = r.data := by
  unfold Reader.ReadString
  cases h : cutAfter d r.data with
  | none => simp
  | some p =>
    obtain ⟨a, b⟩ := p
    exact cutAfter_some d _ a b h

theorem parseHTTPHeadersLoop_step (r : Reader) (h : GoMap Str) :
    (∃ o, ∀ f, parseHTTPHeadersLoop (f + 1) r h = o) ∨
    (∃ r' h', r'.data.length < r.data.length ∧
      ∀ f, parseHTTPHeadersLoop (f + 1) r h = parseHTTPHeadersLoop f r' h') := by
  have hdata := ReadString_data r 10
  rcases hr : r.ReadString 10 with ⟨line, err, r'⟩
  rw [hr] at hdata
  simp only at hdata
  by_cases h0 : line.length = 0
  · left
    cases err with
    | some e =>
      refine ⟨if e = .EOF then .ok (h, r') else .error e, fun f => ?_⟩
      rw [parseHTTPHeadersLoop, hr]
      simp only [h0, if_true]
    | none =>
      refine ⟨.panic, fun f => ?_⟩
      rw [parseHTTPHeadersLoop, hr]
      simp [h0]
  · by_cases h2 : line.length < 2
    · left
      refine ⟨.panic, fun f => ?_⟩
      rw [parseHTTPHeadersLoop, hr]
      simp only [h0, if_false, h2, if_true]
    · by_cases h3 : (if (line)[line.length - 2]? = some 13 then line.take (line.length - 2)
          else line.take (line.length - 1)) = []
      · left
        refine ⟨.ok (h, r'), fun f => ?_⟩
        rw [parseHTTPHeadersLoop, hr]
        simp only [h0, if_false, h2, h3, if_true]
      · rcases hs : Split (if (line)[line.length - 2]? = some 13 then
            line.take (line.length - 2) else line.take (line.length - 1)) (ascii ": ") with
          _ | ⟨n, _ | ⟨v, tl⟩⟩
        · left
          refine ⟨.panic, fun f => ?_⟩
          rw [parseHTTPHeadersLoop, hr]
          simp only [h0, if_false, h2, h3, hs]
        · left
          refine ⟨.panic, fun f => ?_⟩
          rw [parseHTTPHeadersLoop, hr]
          simp only [h0, if_false, h2, h3, hs]
        · right
          refine ⟨r', mapSet h n v, ?_, fun f => ?_⟩
          · rw [← hdata, List.length_append]
            omega
          · rw [parseHTTPHeadersLoop, hr]
            simp only [h0, if_false, h2, h3, hs]

theorem parseHTTPHeadersLoop_fuel (fuel : Nat) (r : Reader) (h : GoMap Str)
    (hf : r.data.length < fuel) :
    parseHTTPHeadersLoop fuel r h = parseHTTPHeadersLoop (r.data.length + 1) r h := by
  induction fuel using Nat.strong_induction_on generalizing r h with
  | _ fuel ih =>
    obtain ⟨f, rfl⟩ : ∃ f, fuel = f + 1 := ⟨fuel - 1, by omega⟩
    rcases parseHTTPHeadersLoop_step r h with ⟨o, ho⟩ | ⟨r', h', hlt, hrec⟩
    · rw [ho f, ho r.data.length]
    · rw [hrec f, hrec r.data.length, ih f (by omega) r' h' (by omega),
        ih r.data.length (by omega) r' h' hlt]

theorem parseHTTPHeaders_eq_loop (fuel : Nat) (r : Reader) (hf : r.data.length < fuel) :
    parseHTTPHeaders r = parseHTTPHeadersLoop fuel r [] := by
  unfold parseHTTPHeaders
  rw [parseHTTPHeadersLoop_fuel fuel r [] hf]

theorem mapSet_new (m : GoMap Str) (k v : Str) (h : k ∉ m.map Prod.fst) :
    mapSet m k v = m ++ [(k, v)] := by
  induction m with
  | nil => rfl
  | cons e m ih =>
    obtain ⟨k', v'⟩ := e
    have h1 : k' ≠ k := fun e => h (by simp [e])
    have h2 : k ∉ m.map Prod.fst := fun e => h (by simp at e ⊢; exact Or.inr e)
    simp [mapSet, h1, ih h2]

theorem foldl_mapSet_nodup (hs acc : GoMap Str) (hnd : ((acc ++ hs).map Prod.fst).Nodup) :
    hs.foldl (fun m kv => mapSet m kv.1 kv.2) acc = acc ++ hs := by
  induction hs generalizing acc with
  | nil => simp
  | cons kv hs ih =>
    have hnew : kv.1 ∉ acc.map Prod.fst := by
      rw [List.map_append, List.nodup_append] at hnd
      intro hin
      exact hnd.2.2 hin (by simp)
    rw [List.foldl_cons, mapSet_new acc kv.1 kv.2 hnew, ih]
    · simp
    · simpa using hnd

theorem parseHTTPHeadersLoop_block (hs : List (Str × Str)) (rest : Str) (final : GoErr)
    (hok : ∀ kv ∈ hs, 10 ∉ kv.1 ∧ 10 ∉ kv.2 ∧ ¬ ascii ": " <:+: kv.1 ∧ ¬ ascii ": " <:+: kv.2)
    (fuel : Nat) (hf : hs.length < fuel) (headers : GoMap Str) :
    parseHTTPHeadersLoop fuel { data := headerBlock hs ++ rest, final := final } headers =
      .ok (hs.foldl (fun m kv => mapSet m kv.1 kv.2) headers,
        { data := rest, final := final }) := by
  have hcrlf : ascii "\r\n" = [13, 10] := rfl
  have hsep : ascii ": " = [58, 32] := rfl
  induction hs generalizing fuel headers with
  | nil =>
    obtain ⟨f, rfl⟩ : ∃ f, fuel = f + 1 := ⟨fuel - 1, by simp at hf; omega⟩
    have := parseHTTPHeadersLoop_blank f rest final headers
    simpa [headerBlock, hcrlf] using this
  | cons kv hs ih =>
    obtain ⟨f, rfl⟩ : ∃ f, fuel = f + 1 := ⟨fuel - 1, by simp at hf; omega⟩
    obtain ⟨h1, h2, h3, h4⟩ := hok kv (List.mem_cons_self _ _)
    have hl : (10 : Nat) ∉ kv.1 ++ ascii ": " ++ kv.2 := by
      simp [h1, h2, hsep]
    have hne : kv.1 ++ ascii ": " ++ kv.2 ≠ [] := by simp [hsep]
    have hstep := parseHTTPHeadersLoop_line f (kv.1 ++ ascii ": " ++ kv.2)
      (headerBlock hs ++ rest) final headers hl hne
    rw [Split_header kv.1 kv.2 h3 h4] at hstep
    simp only at hstep
    have hdata : headerBlock (kv :: hs) ++ rest =
        kv.1 ++ ascii ": " ++ kv.2 ++ [13, 10] ++ (headerBlock hs ++ rest) := by
      simp [headerBlock, headerLine, hcrlf, List.append_assoc]
    rw [hdata, hstep, ih (fun kv' hkv' => hok kv' (List.mem_cons_of_mem _ hkv')) f
      (by simp at hf; omega)]
    rfl

/-- For a header section of lines with pairwise distinct names, names and values free
of LF and of the separator, `parseHTTPHeaders` succeeds with exactly the
declared pairs, stored as received. -/
theorem parseHTTPHeaders_block (hs : List (Str × Str)) (rest : Str) (final : GoErr)
    (hnd : (hs.map Prod.fst).Nodup)
    (hok : ∀ kv ∈ hs, 10 ∉ kv.1 ∧ 10 ∉ kv.2 ∧ ¬ ascii ": " <:+: kv.1 ∧ ¬ ascii ": " <:+: kv.2) :
    parseHTTPHeaders { data := headerBlock hs ++ rest, final := final } =
      .ok (hs, { data := rest, final := final }) := by
  rw [parseHTTPHeaders_eq_loop ((headerBlock hs ++ rest).length + hs.length + 1) _
    (by simp only; omega)]
  rw [parseHTTPHeadersLoop_block hs rest final hok _ (by omega),
    foldl_mapSet_nodup hs [] (by simpa using hnd)]
  rfl

theorem parseHTTPHeaders_block_witness :
    parseHTTPHeaders { data := ascii "Host: x\r\nUser-Agent: curl/8.0\r\n\r\nrest", final := .EOF }
      = .ok ([(ascii "Host", ascii "x"), (ascii "User-Agent", ascii "curl/8.0")],
          { data := ascii "rest", final := .EOF }) :=
  parseHTTPHeaders_block [(ascii "Host", ascii "x"), (ascii "User-Agent", ascii "curl/8.0")]
    (ascii "rest") .EOF (by decide) (by decide)

/-- C9. A header value that holds the separator is cut at it: for the header section
"X-Note: a: b" the map returned by `parseHTTPHeaders` holds the value "a",
not the value "a: b" that was received. -/
theorem header_value_cut_at_separator :
    parseHTTPHeaders { data := headerBlock [(ascii "X-Note", ascii "a: b")], final := .EOF } =
      .ok ([(ascii "X-Note", ascii "a")], { data := [], final := .EOF }) ∧
    parseHTTPHeaders { data := headerBlock [(ascii "X-Note", ascii "a: b")], final := .EOF } ≠
      .ok ([(ascii "X-Note", ascii "a: b")], { data := [], final := .EOF }) := by
  decide

theorem parseHTTPHeadersLoop_no_separator (fuel : Nat) (l rest : Str) (final : GoErr)
    (headers : GoMap Str) (hl : 10 ∉ l) (hne : l ≠ []) (hsep : ¬ ascii ": " <:+: l) :
    parseHTTPHeadersLoop (fuel + 1) { data := l ++ [13, 10] ++ rest, final := final } headers =
      .panic := by
  rw [parseHTTPHeadersLoop_line fuel l rest final headers hl hne]
  have h := splitAux_no_sep (ascii ": ") l [] hsep
  unfold Split
  rw [h]

/-- C10. A header line without the separator makes `parseHTTPHeaders` panic on
`headerLine[1]` instead of returning an error, and `ReadRequest` panics with
it: shown on the header sections "Host" and "Host:example". -/
theorem header_without_separator_panics :
    parseHTTPHeaders { data := ascii "Host\r\n\r\n", final := .EOF } = .panic ∧
    parseHTTPHeaders { data := ascii "Host:example\r\n\r\n", final := .EOF } = .panic ∧
    ReadRequest { data := ascii "GET / HTTP/1.1\r\nHost\r\n\r\n", final := .EOF } = .panic := by
  refine ⟨by decide, by decide, by rfl⟩

/-! ## Request bodies -/

theorem parseHTTPStartLine_keeps (conn rd : Reader) (req req1 : Request)
    (h : parseHTTPStartLine conn req = .ok (req1, rd)) :
    req1.Body = req.Body ∧ req1.Headers = req.Headers := by
  unfold parseHTTPStartLine at h
  rcases hr : conn.ReadString 10 with ⟨l, err, rd'⟩
  rw [hr] at h
  cases err with
  | some e => simp at h
  | none =>
    simp only at h
    split at h
    · simp only [Outcome.ok.injEq, Prod.mk.injEq] at h
      obtain ⟨rfl, _⟩ := h
      exact ⟨rfl, rfl⟩
    · simp at h

theorem ReadRequest_of_headers (conn reader1 reader2 : Reader) (req1 : Request)
    (headers : GoMap Str)
    (hstart : parseHTTPStartLine conn emptyRequest = .ok (req1, reader1))
    (hhead : parseHTTPHeaders reader1 = .ok (headers, reader2)) :
    ReadRequest conn =
      match mapGet headers (ascii "Content-Length") with
      | none => .ok ({ req1 with Headers := headers }, reader2)
      | some contentLength =>
        match Atoi contentLength with
        | .panic => .panic
        | .error err => .error err
        | .ok contentLength =>
          if contentLength < 0 ∨ maxAlloc < contentLength then .panic
          else
            match ReadFull reader2 contentLength.toNat with
            | .panic => .panic
            | .error err => .error err
            | .ok (buf, reader) => .ok ({ req1 with Headers := headers, Body := buf }, reader) := by
  unfold ReadRequest
  have h0 : ({ Method := [], Path := [], HTTPVersion := [], Body := [], Headers := [] } : Request)
      = emptyRequest := rfl
  simp only [h0, hstart, hhead]

theorem hugeBody_length : hugeBody.length = 2 ^ 48 + 1 := by
  rw [hugeBody, List.length_replicate]

theorem parseHTTPStartLine_get (rest : Str) (final : GoErr) :
    parseHTTPStartLine { data := ascii "GET / HTTP/1.1\r\n" ++ rest, final := final }
        emptyRequest =
      .ok ({ Method := ascii "GET", Path := ascii "/", HTTPVersion := ascii "HTTP/1.1",
             Body := [], Headers := [] }, { data := rest, final := final }) := by
  have hread := ReadString_line 10 (ascii "GET / HTTP/1.1\r") rest final (by decide)
  have e1 : ascii "GET / HTTP/1.1\r\n" ++ rest = ascii "GET / HTTP/1.1\r" ++ 10 :: rest := by
    have : ascii "GET / HTTP/1.1\r\n" = ascii "GET / HTTP/1.1\r" ++ [10] := by decide
    rw [this, List.append_assoc]
    rfl
  have e2 : ascii "GET / HTTP/1.1\r\n" ++ rest =
      ascii "GET / HTTP/1.1" ++ [13, 10] ++ rest := by
    have : ascii "GET / HTTP/1.1\r\n" = ascii "GET / HTTP/1.1" ++ [13, 10] := by decide
    rw [this]
  have e3 : ascii "GET / HTTP/1.1\r" ++ [10] = ascii "GET / HTTP/1.1" ++ [13, 10] := by decide
  rw [← e1, e2, e3] at hread
  rw [e2]
  exact parseHTTPStartLine_of_line (ascii "GET / HTTP/1.1") [13, 10] rest final emptyRequest
    (ascii "GET") (ascii "/") (ascii "HTTP/1.1") hread (by decide) (by decide)

theorem ReadRequest_make_panics (conn reader1 reader2 : Reader) (req1 : Request)
    (headers : GoMap Str) (v : Str) (n : Int)
    (hstart : parseHTTPStartLine conn emptyRequest = .ok (req1, reader1))
    (hhead : parseHTTPHeaders reader1 = .ok (headers, reader2))
    (hv : mapGet headers (ascii "Content-Length") = some v) (hn : Atoi v = .ok n)
    (hbad : n < 0 ∨ maxAlloc < n) : ReadRequest conn = .panic := by
  rw [ReadRequest_of_headers conn reader1 reader2 req1 headers hstart hhead]
  simp only [hv, hn, hbad, if_true]

/-- C11. A request that declares `Content-Length: 281474976710657` (`2^48 + 1`) makes
`ReadRequest` panic in `make([]byte, contentLength)`, before a single body
byte is read: it panics whatever bytes follow the header section, be it the
declared number of them (where it should succeed with that body) or none at
all (where it should return an error). -/
theorem oversized_content_length_panics :
    parseHTTPHeaders
        { data := headerBlock [(ascii "Content-Length", ascii "281474976710657")] ++ hugeBody,
          final := .EOF } =
      .ok ([(ascii "Content-Length", ascii "281474976710657")],
           { data := hugeBody, final := .EOF }) ∧
    Atoi (ascii "281474976710657") = .ok 281474976710657 ∧
    281474976710657 ≤ hugeBody.length ∧
    ReadRequest
        { data := ascii "GET / HTTP/1.1\r\n" ++
            (headerBlock [(ascii "Content-Length", ascii "281474976710657")] ++ hugeBody),
          final := .EOF } = .panic ∧
    ReadRequest
        { data := ascii "GET / HTTP/1.1\r\nContent-Length: 281474976710657\r\n\r\n",
          final := .EOF } = .panic ∧
    (∀ (rest : Str) (final : GoErr),
      ReadRequest
        { data := ascii "GET / HTTP/1.1\r\n" ++
            (headerBlock [(ascii "Content-Length", ascii "281474976710657")] ++ rest),
          final := final } = .panic) := by
  have hatoi : Atoi (ascii "281474976710657") = .ok 281474976710657 := by decide
  have hget : mapGet [(ascii "Content-Length", ascii "281474976710657")]
      (ascii "Content-Length") = some (ascii "281474976710657") := by decide
  have hcond : (281474976710657 : Int) < 0 ∨ maxAlloc < 281474976710657 := by
    right; decide
  have hall : ∀ (rest : Str) (final : GoErr),
      ReadRequest
        { data := ascii "GET / HTTP/1.1\r\n" ++
            (headerBlock [(ascii "Content-Length", ascii "281474976710657")] ++ rest),
          final := final } = .panic := by
    intro rest final
    exact ReadRequest_make_panics _ _ _ _ _ _ _ (parseHTTPStartLine_get _ _)
      (parseHTTPHeaders_block [(ascii "Content-Length", ascii "281474976710657")]
        rest final (by decide) (by decide)) hget hatoi hcond
  refine ⟨parseHTTPHeaders_block [(ascii "Content-Length", ascii "281474976710657")]
    hugeBody .EOF (by decide) (by decide), hatoi, ?_, hall hugeBody .EOF, ?_, hall⟩
  · rw [hugeBody_length]; decide
  · have e : ascii "GET / HTTP/1.1\r\nContent-Length: 281474976710657\r\n\r\n" =
        ascii "GET / HTTP/1.1\r\n" ++
          (headerBlock [(ascii "Content-Length", ascii "281474976710657")] ++ []) := by
      decide
    rw [e]
    exact hall [] .EOF

/-! ## The connection handler -/

theorem handleConn_ok (order : RangeOrder) (now : Str) (writeErr : Option GoErr) (s : Server)
    (conn rd : Reader) (request : Request) (handler : Handler) (r0 resp : Response)
    (hread : ReadRequest conn = .ok (request, rd))
    (hfind : findHandler s request = some handler)
    (hinit : initialResponse s request = some r0)
    (hrun : handler request r0 = some resp) :
    handleConn order now writeErr s conn =
      .invoke request.Path :: .write ((resp.Prep now).String order) ::
        (match writeErr with
          | some _ => [.log, .close]
          | none => if continues (resp.Prep now) then [.recurse, .close] else [.close]) := by
  unfold handleConn
  rw [hread]
  simp only [hfind]
  unfold initialResponse at hinit
  rw [hinit]
  simp only [hrun]
  cases writeErr with
  | some e => rfl
  | none =>
    simp only [continues]
    split_ifs <;> rfl

theorem initialResponse_some (s : Server) (request : Request) :
    ∃ r0, initialResponse s request = some r0 ∧ r0.Body = [] ∧
      mapGet (entries r0.Headers) (ascii "Connection") =
        some (if mapGet request.Headers (ascii "Connection") = some (ascii "close")
          then ascii "close" else ascii "keep-alive") := by
  have h1 : ¬ (ascii "Content-Type" = ascii "Connection") := by decide
  unfold initialResponse
  by_cases hc : mapGet request.Headers (ascii "Connection") = some (ascii "close")
  · simp only [hc, if_true]
    refine ⟨_, rfl, rfl, ?_⟩
    simp [entries, InitResponse, mapSet, mapGet, h1]
  · simp only [hc, if_false]
    refine ⟨_, rfl, rfl, ?_⟩
    simp [entries, InitResponse, mapGet, h1]

theorem Prep_keeps_Connection (now : Str) (r : Response) :
    mapGet (entries (r.Prep now).Headers) (ascii "Connection") =
      mapGet (entries r.Headers) (ascii "Connection") := by
  have h1 : ascii "Connection" ≠ ascii "Content-Length" := by decide
  have h2 : ascii "Connection" ≠ ascii "Date" := by decide
  unfold Response.Prep
  cases hH : r.Headers with
  | none =>
    simp only [entries]
    rw [mapGet_mapSet_ne _ _ _ _ h1]
    cases hd : mapGet ([] : GoMap Str) (ascii "Date") with
    | none => simp only; rw [mapGet_mapSet_ne _ _ _ _ h2]
    | some d => rfl
  | some m =>
    simp only [entries]
    rw [mapGet_mapSet_ne _ _ _ _ h1]
    cases hd : mapGet m (ascii "Date") with
    | none => simp only; rw [mapGet_mapSet_ne _ _ _ _ h2]
    | some d => rfl

theorem mapGet_mem {β : Type} (m : GoMap β) (k : Str) (v : β) (h : mapGet m k = some v) :
    (k, v) ∈ m := by
  induction m with
  | nil => simp [mapGet] at h
  | cons e m ih =>
    obtain ⟨k', v'⟩ := e
    by_cases hk : k' = k
    · simp only [mapGet, hk, if_true, Option.some.injEq] at h
      subst hk; subst h
      exact List.mem_cons_self _ _
    · simp only [mapGet, hk, if_false] at h
      exact List.mem_cons_of_mem _ (ih h)

theorem header_line_infix (order : RangeOrder) (hord : RangeOrderOK order) (r : Response)
    (k v : Str) (h : mapGet (entries r.Headers) k = some v) :
    k ++ ascii ": " ++ v ++ CRLF <:+: r.String order := by
  rw [String_eq_wireFormat]
  unfold wireFormat
  have hmem : (k, v) ∈ order (entries r.Headers) :=
    (hord _).mem_iff.2 (mapGet_mem _ _ _ h)
  have h2 : k ++ ascii ": " ++ v ++ CRLF ∈
      (order (entries r.Headers)).map (fun kv => kv.1 ++ ascii ": " ++ kv.2 ++ CRLF) :=
    List.mem_map.2 ⟨(k, v), hmem, rfl⟩
  exact (List.infix_of_mem_flatten h2).trans ((List.suffix_append _ _).isInfix.trans
    ((List.prefix_append _ _).isInfix.trans (List.prefix_append _ _).isInfix))

/-- C13, as amended. When a parsed request carries `Connection: close` and the
handler found for it returns and leaves the `Connection` header of the response
as the close override set it, `handleConn` calls the handler once, writes one
response and closes the connection: the continuation test is false and it does
not call itself. -/
theorem close_request_closes (order : RangeOrder) (now : Str) (writeErr : Option GoErr)
    (s : Server) (conn rd : Reader) (request : Request) (handler : Handler)
    (r0 resp : Response)
    (hread : ReadRequest conn = .ok (request, rd))
    (hclose : mapGet request.Headers (ascii "Connection") = some (ascii "close"))
    (hfind : findHandler s request = some handler)
    (hinit : initialResponse s request = some r0)
    (hrun : handler request r0 = some resp)
    (hkeep : mapGet (entries resp.Headers) (ascii "Connection") =
      mapGet (entries r0.Headers) (ascii "Connection")) :
    ¬ continues (resp.Prep now) ∧
    handleConn order now writeErr s conn =
      .invoke request.Path :: .write ((resp.Prep now).String order) ::
        (match writeErr with
          | some _ => [.log, .close]
          | none => [.close]) ∧
    Event.recurse ∉ handleConn order now writeErr s conn := by
  obtain ⟨r0', hinit', _, hconn⟩ := initialResponse_some s request
  rw [hinit] at hinit'
  obtain rfl : r0 = r0' := Option.some.inj hinit'
  rw [if_pos hclose] at hconn
  have hne : ascii "close" ≠ ascii "keep-alive" := by decide
  have hcont : ¬ continues (resp.Prep now) := by
    unfold continues
    rw [Prep_keeps_Connection, hkeep, hconn]
    simp [hne]
  have hev := handleConn_ok order now writeErr s conn rd request handler r0 resp hread hfind
    hinit hrun
  rw [if_neg hcont] at hev
  refine ⟨hcont, hev, ?_⟩
  rw [hev]
  cases writeErr <;> simp

theorem close_request_closes_witness :
    Event.recurse ∉ handleConn id (ascii "now") none (demoServer insertionSortCmpFunc)
      { data := ascii "GET /echo/abc HTTP/1.1\r\nConnection: close\r\n\r\n", final := .EOF } :=
  (close_request_closes id (ascii "now") none (demoServer insertionSortCmpFunc)
    { data := ascii "GET /echo/abc HTTP/1.1\r\nConnection: close\r\n\r\n", final := .EOF }
    { data := [], final := .EOF }
    { Method := ascii "GET", Path := ascii "/echo/abc", HTTPVersion := ascii "HTTP/1.1",
      Body := [], Headers := [(ascii "Connection", ascii "close")] }
    EchoHandler
    { HTTPVersion := ascii "HTTP/1.1", StatusCode := 200, ReasonPhrase := ascii "OK",
      Headers := some
        [(ascii "Content-Type", ascii "text/html; charset=utf-8"),
         (ascii "Connection", ascii "close"),
         (ascii "Server", ascii "myhttp/0.0.1"),
         (ascii "Content-Length", ascii "0")],
      Body := [] }
    { HTTPVersion := ascii "HTTP/1.1", StatusCode := 200, ReasonPhrase := ascii "OK",
      Headers := some
        [(ascii "Content-Type", ascii "text/html; charset=utf-8"),
         (ascii "Connection", ascii "close"),
         (ascii "Server", ascii "myhttp/0.0.1"),
         (ascii "Content-Length", ascii "0")],
      Body := ascii "abc" }
    (by rfl) (by decide) (by rfl) (by rfl) (by rfl) (by decide)).2.2

/-- C13, counterexample. Two requests carry `Connection: close` and are answered, yet
`handleConn` goes on to read another request on the connection: on the demo
server the path `/nope` reaches `Default404Handler`, which replaces the header
map, and on a server with `keepAliveHandler` the handler overrides the header. -/
theorem close_request_kept_alive :
    (mapGet [(ascii "Connection", ascii "close")] (ascii "Connection") = some (ascii "close") ∧
      ReadRequest
          { data := ascii "GET /nope HTTP/1.1\r\nConnection: close\r\n\r\n", final := .EOF } =
        .ok ({ Method := ascii "GET", Path := ascii "/nope", HTTPVersion := ascii "HTTP/1.1",
               Body := [], Headers := [(ascii "Connection", ascii "close")] },
             { data := [], final := .EOF }) ∧
      Event.recurse ∈ handleConn id (ascii "now") none (demoServer insertionSortCmpFunc)
          { data := ascii "GET /nope HTTP/1.1\r\nConnection: close\r\n\r\n", final := .EOF }) ∧
    (ReadRequest
          { data := ascii "GET /k HTTP/1.1\r\nConnection: close\r\n\r\n", final := .EOF } =
        .ok ({ Method := ascii "GET", Path := ascii "/k", HTTPVersion := ascii "HTTP/1.1",
               Body := [], Headers := [(ascii "Connection", ascii "close")] },
             { data := [], final := .EOF }) ∧
      Event.recurse ∈ handleConn id (ascii "now") none
          (registerAll insertionSortCmpFunc (ascii "localhost:4221")
            [(ascii "/k", keepAliveHandler)])
          { data := ascii "GET /k HTTP/1.1\r\nConnection: close\r\n\r\n", final := .EOF }) := by
  refine ⟨⟨by decide, by rfl, by decide⟩, by rfl, by decide⟩

/-- C14. When a parsed request has no `Connection` header and the handler found for
it returns and leaves the `Connection` header of the response untouched,
the response written holds the line `Connection: keep-alive` and, the write
having succeeded, `handleConn` calls itself for the next request.  In general,
after a successful write it calls itself exactly when the `Connection` header
of the response sent is absent or equal to "keep-alive". -/
theorem keep_alive_continues (order : RangeOrder) (hord : RangeOrderOK order) (now : Str)
    (s : Server) (conn rd : Reader) (request : Request) (handler : Handler)
    (r0 resp : Response)
    (hread : ReadRequest conn = .ok (request, rd))
    (hfind : findHandler s request = some handler)
    (hinit : initialResponse s request = some r0)
    (hrun : handler request r0 = some resp) :
    (mapGet request.Headers (ascii "Connection") = none →
      mapGet (entries resp.Headers) (ascii "Connection") =
        mapGet (entries r0.Headers) (ascii "Connection") →
      r0 = InitResponse s ∧
      handleConn order now none s conn =
        [.invoke request.Path, .write ((resp.Prep now).String order), .recurse, .close] ∧
      ascii "Connection: keep-alive\r\n" <:+: (resp.Prep now).String order) ∧
    (Event.recurse ∈ handleConn order now none s conn ↔
      (mapGet (entries (resp.Prep now).Headers) (ascii "Connection") = none ∨
        mapGet (entries (resp.Prep now).Headers) (ascii "Connection") =
          some (ascii "keep-alive"))) := by
  have hev := handleConn_ok order now none s conn rd request handler r0 resp hread hfind
    hinit hrun
  constructor
  · intro hnone hkeep
    obtain ⟨r0', hinit', _, hconn⟩ := initialResponse_some s request
    rw [hinit] at hinit'
    obtain rfl : r0 = r0' := Option.some.inj hinit'
    have hnc : ¬ (mapGet request.Headers (ascii "Connection") = some (ascii "close")) := by
      rw [hnone]; simp
    rw [if_neg hnc] at hconn
    have hfinal : mapGet (entries (resp.Prep now).Headers) (ascii "Connection") =
        some (ascii "keep-alive") := by
      rw [Prep_keeps_Connection, hkeep, hconn]
    have hcont : continues (resp.Prep now) := Or.inr hfinal
    have hr0 : r0 = InitResponse s := by
      unfold initialResponse at hinit
      rw [if_neg hnc] at hinit
      exact (Option.some.inj hinit).symm
    refine ⟨hr0, ?_, ?_⟩
    · rw [hev]
      simp only [hcont, if_true]
    · have := header_line_infix order hord (resp.Prep now) _ _ hfinal
      have e : ascii "Connection" ++ ascii ": " ++ ascii "keep-alive" ++ CRLF =
          ascii "Connection: keep-alive\r\n" := by decide
      rw [e] at this
      exact this
  · rw [hev]
    show Event.recurse ∈ Event.invoke request.Path :: Event.write ((resp.Prep now).String order)
      :: (if continues (resp.Prep now) then [Event.recurse, Event.close] else [Event.close]) ↔
      continues (resp.Prep now)
    by_cases hc : continues (resp.Prep now)
    · simp [hc]
    · simp [hc]

theorem keep_alive_continues_witness :
    ascii "Connection: keep-alive\r\n" <:+:
      (Response.Prep (ascii "now")
        { InitResponse (demoServer insertionSortCmpFunc) with Body := ascii "abc" }).String id ∧
    Event.recurse ∈ handleConn id (ascii "now") none (demoServer insertionSortCmpFunc)
      { data := ascii "GET /echo/abc HTTP/1.1\r\nHost: x\r\n\r\n", final := .EOF } :=
  have h := keep_alive_continues id (fun m => List.Perm.refl m) (ascii "now")
    (demoServer insertionSortCmpFunc)
    { data := ascii "GET /echo/abc HTTP/1.1\r\nHost: x\r\n\r\n", final := .EOF }
    { data := [], final := .EOF }
    { Method := ascii "GET", Path := ascii "/echo/abc", HTTPVersion := ascii "HTTP/1.1",
      Body := [], Headers := [(ascii "Host", ascii "x")] }
    EchoHandler
    (InitResponse (demoServer insertionSortCmpFunc))
    { InitResponse (demoServer insertionSortCmpFunc) with Body := ascii "abc" }
    (by rfl) (by rfl) (by rfl) (by rfl)
  ⟨(h.1 (by decide) (by decide)).2.2, h.2.2 (by decide)⟩

/-- C12. A `Content-Length` value of "-1" is read by `Atoi` as the integer -1 and
`make([]byte, -1)` panics, so `ReadRequest` panics instead of returning an
error; the values "abc" and "" do make it return the error of `Atoi`. -/
theorem negative_content_length_panics :
    Atoi (ascii "-1") = .ok (-1) ∧
    ReadRequest { data := ascii "GET / HTTP/1.1\r\nContent-Length: -1\r\n\r\n", final := .EOF } =
      .panic ∧
    ReadRequest { data := ascii "GET / HTTP/1.1\r\nContent-Length: abc\r\n\r\n", final := .EOF } =
      .error .ErrSyntax ∧
    ReadRequest { data := ascii "GET / HTTP/1.1\r\nContent-Length: \r\n\r\n", final := .EOF } =
      .error .ErrSyntax := by
  refine ⟨by decide, by rfl, by rfl, by rfl⟩

theorem parseHTTPHeadersLoop_bare_lf (fuel : Nat) (rest : Str) (final : GoErr)
    (headers : GoMap Str) :
    parseHTTPHeadersLoop (fuel + 1) { data := 10 :: rest, final := final } headers = .panic := by
  have hread : Reader.ReadString { data := 10 :: rest, final := final } 10 =
      ([10], none, { data := rest, final := final }) := by
    simp [Reader.ReadString, cutAfter]
  rw [parseHTTPHeadersLoop, hread]
  simp

/-- C17. A request whose lines end in a bare LF makes `ReadRequest` panic at the
empty line: that line is one byte long and `line[len(line)-2]` is the index
-1.  The same request with CR LF line ends parses, and so does a header line
with a bare LF as long as the empty line has CR LF. -/
theorem bare_lf_blank_line_panics :
    parseHTTPHeaders { data := ascii "\n", final := .EOF } = .panic ∧
    ReadRequest { data := ascii "GET / HTTP/1.1\nHost: x\n\n", final := .EOF } = .panic ∧
    ReadRequest { data := ascii "GET / HTTP/1.1\r\nHost: x\r\n\r\n", final := .EOF } =
      .ok ({ Method := ascii "GET", Path := ascii "/", HTTPVersion := ascii "HTTP/1.1",
             Body := [], Headers := [(ascii "Host", ascii "x")] },
           { data := [], final := .EOF }) ∧
    ReadRequest { data := ascii "GET / HTTP/1.1\nHost: x\n\r\n", final := .EOF } =
      .ok ({ Method := ascii "GET", Path := ascii "/", HTTPVersion := ascii "HTTP/1.1",
             Body := [], Headers := [(ascii "Host", ascii "x")] },
           { data := [], final := .EOF }) := by
  refine ⟨by decide, by rfl, by rfl, by rfl⟩

/-- C18. When the stream ends inside the header line `Host: abc`, `ReadRequest`
returns no error: it returns a request whose `Host` header is "ab", the
partial line with its last byte cut off. -/
theorem eof_in_header_line_accepted :
    Reader.ReadString { data := ascii "Host: abc", final := .EOF } 10 =
      (ascii "Host: abc", some .EOF, { data := [], final := .EOF }) ∧
    ReadRequest { data := ascii "GET / HTTP/1.1\r\nHost: abc", final := .EOF } =
      .ok ({ Method := ascii "GET", Path := ascii "/", HTTPVersion := ascii "HTTP/1.1",
             Body := [], Headers := [(ascii "Host", ascii "ab")] },
           { data := [], final := .EOF }) := by
  refine ⟨by decide, by rfl⟩

theorem findWild_some_of_inv (handlers : GoMap Handler) (path : Str) (wild : List Str)
    (h : ∀ p ∈ wild, (mapGet handlers p).isSome = true) :
    findWild handlers path wild ≠ some none := by
  induction wild with
  | nil => simp [findWild]
  | cons q wild ih =>
    unfold findWild
    split_ifs
    · have := h q (List.mem_cons_self _ _)
      intro he
      rw [Option.some.inj he] at this
      cases this
    · exact ih (fun p hp => h p (List.mem_cons_of_mem _ hp))

/-- C19. On every server reachable from `NewTCPServer` by `SetHandler` and
`UnsetHandler` calls, the wildcard list is ordered by non-increasing length,
has no duplicates and holds exactly the keys of the handler map that end in a
slash; `findHandler` never returns the nil handler, and `UnsetHandler` does
not panic. -/
theorem route_table_invariant (sortFunc : SortFunc) (hs : SortFuncOK sortFunc) (s : Server)
    (h : Reachable sortFunc s) :
    s.wildPatterns.Pairwise (fun a b => b.length ≤ a.length) ∧
    s.wildPatterns.Nodup ∧
    (∀ p, p ∈ s.wildPatterns ↔
      (mapGet s.handlers p).isSome = true ∧ endsInSlash p = true) ∧
    (∀ p ∈ s.wildPatterns, ∃ handler, mapGet s.handlers p = some handler) ∧
    (∀ request, ∃ handler, findHandler s request = some handler) ∧
    (∀ pattern, ∃ s', UnsetHandler s pattern = some s' ∧
      s'.wildPatterns = s.wildPatterns.erase pattern) := by
  obtain ⟨hnd, hmem, hsorted⟩ := RouteInv_of_Reachable sortFunc hs s h
  have hkey : ∀ p ∈ s.wildPatterns, (mapGet s.handlers p).isSome = true :=
    fun p hp => ((hmem p).1 hp).1
  refine ⟨hsorted, hnd, hmem, ?_, ?_, ?_⟩
  · intro p hp
    exact Option.isSome_iff_exists.1 (hkey p hp)
  · intro request
    unfold findHandler
    cases hg : mapGet s.handlers request.Path with
    | some handler => exact ⟨handler, rfl⟩
    | none =>
      simp only
      cases hw : findWild s.handlers request.Path s.wildPatterns with
      | none => exact ⟨Default404Handler, rfl⟩
      | some o =>
        cases o with
        | none => exact absurd hw (findWild_some_of_inv _ _ _ hkey)
        | some handler => exact ⟨handler, rfl⟩
  · intro pattern
    unfold UnsetHandler
    rw [unsetLoop_nodup pattern s.wildPatterns hnd]
    exact ⟨_, rfl, rfl⟩

theorem route_table_invariant_witness :
    (demoServer insertionSortCmpFunc).wildPatterns.Nodup ∧
    (demoServer insertionSortCmpFunc).wildPatterns = [ascii "/echo/", ascii "/"] :=
  ⟨(route_table_invariant insertionSortCmpFunc SortFuncOK_insertionSortCmpFunc
    (demoServer insertionSortCmpFunc)
    (Reachable_registerAll insertionSortCmpFunc _ _)).2.1, by decide⟩

/-! ## Duplicate headers -/

theorem keys_mapSet {β : Type} (m : GoMap β) (k : Str) (v : β) :
    (mapSet m k v).map Prod.fst =
      if k ∈ m.map Prod.fst then m.map Prod.fst else m.map Prod.fst ++ [k] := by
  induction m with
  | nil => simp [mapSet]
  | cons e m ih =>
    obtain ⟨k', v'⟩ := e
    by_cases hk : k' = k
    · subst hk
      simp [mapSet]
    · have hk' : ¬ k = k' := fun e => hk e.symm
      simp only [mapSet, hk, if_false, List.map_cons, ih, List.mem_cons, hk', false_or]
      split_ifs <;> simp

theorem keys_mapSet_nodup {β : Type} (m : GoMap β) (k : Str) (v : β)
    (h : (m.map Prod.fst).Nodup) : ((mapSet m k v).map Prod.fst).Nodup := by
  rw [keys_mapSet]
  split_ifs with hk
  · exact h
  · rw [List.nodup_append]
    refine ⟨h, List.nodup_singleton _, ?_⟩
    intro a ha hb
    simp only [List.mem_singleton] at hb
    subst hb
    exact hk ha

theorem foldl_mapSet_keys_nodup (hs : List (Str × Str)) (f : Str → Str) (acc : GoMap Str)
    (h : (acc.map Prod.fst).Nodup) :
    ((hs.foldl (fun m kv => mapSet m kv.1 (f kv.2)) acc).map Prod.fst).Nodup := by
  induction hs generalizing acc with
  | nil => exact h
  | cons kv hs ih => exact ih _ (keys_mapSet_nodup acc kv.1 (f kv.2) h)

theorem lastValue_cons (kv : Str × Str) (hs : List (Str × Str)) (name : Str) :
    lastValue (kv :: hs) name =
      match lastValue hs name with
      | some v => some v
      | none => if kv.1 = name then some kv.2 else none := rfl

theorem mapGet_foldl_mapSet (hs : List (Str × Str)) (acc : GoMap Str) (k : Str) :
    mapGet (hs.foldl (fun m kv => mapSet m kv.1 kv.2) acc) k =
      match lastValue hs k with
      | some v => some v
      | none => mapGet acc k := by
  induction hs generalizing acc with
  | nil => rfl
  | cons kv hs ih =>
    rw [List.foldl_cons, ih, lastValue_cons]
    cases hl : lastValue hs k with
    | some v => rfl
    | none =>
      by_cases hk : kv.1 = k
      · subst hk
        simp [mapGet_mapSet_self]
      · simp only [hk, if_false]
        exact mapGet_mapSet_ne _ _ _ _ (fun e => hk e.symm)

theorem lastValue_isSome (hs : List (Str × Str)) (k : Str) (h : k ∈ hs.map Prod.fst) :
    ∃ v, lastValue hs k = some v := by
  induction hs with
  | nil => simp at h
  | cons kv hs ih =>
    rw [lastValue_cons]
    cases hl : lastValue hs k with
    | some v => exact ⟨v, rfl⟩
    | none =>
      have hk : kv.1 = k := by
        rw [List.map_cons, List.mem_cons] at h
        rcases h with e | e
        · exact e.symm
        · obtain ⟨v, hv⟩ := ih e
          rw [hl] at hv
          cases hv
      exact ⟨kv.2, by simp [hk]⟩

theorem lastValue_none (hs : List (Str × Str)) (k : Str) (h : k ∉ hs.map Prod.fst) :
    lastValue hs k = none := by
  induction hs with
  | nil => rfl
  | cons kv hs ih =>
    rw [List.map_cons, List.mem_cons, not_or] at h
    have hk : ¬ kv.1 = k := fun e => h.1 e.symm
    rw [lastValue_cons, ih h.2]
    simp only [hk, if_false]

theorem mapGet_of_mem {β : Type} (m : GoMap β) (k : Str) (v : β)
    (hnd : (m.map Prod.fst).Nodup) (h : (k, v) ∈ m) : mapGet m k = some v := by
  induction m with
  | nil => cases h
  | cons e m ih =>
    obtain ⟨k', v'⟩ := e
    rw [List.map_cons, List.nodup_cons] at hnd
    rcases List.mem_cons.1 h with e | e
    · simp only [Prod.mk.injEq] at e
      obtain ⟨rfl, rfl⟩ := e
      simp [mapGet]
    · have hk : k' ≠ k := by
        intro e'
        subst e'
        exact hnd.1 (List.mem_map.2 ⟨(k', v), e, rfl⟩)
      simp only [mapGet, hk, if_false]
      exact ih hnd.2 e

/-- C20, as amended. For a header section of lines whose names and values are free of LF
and of the separator, `parseHTTPHeaders` succeeds with a map that holds every
name of the section exactly once (its names are those of the section, without
repetition), with the value of the last line that carries the name: a later
line overwrites an earlier one. -/
theorem duplicate_header_last_wins (hs : List (Str × Str)) (rest : Str) (final : GoErr)
    (hok : ∀ kv ∈ hs, 10 ∉ kv.1 ∧ 10 ∉ kv.2 ∧ ¬ ascii ": " <:+: kv.1 ∧ ¬ ascii ": " <:+: kv.2) :
    ∃ m, parseHTTPHeaders { data := headerBlock hs ++ rest, final := final } =
        .ok (m, { data := rest, final := final }) ∧
      (∀ name, mapGet m name = lastValue hs name) ∧
      (m.map Prod.fst).Nodup ∧
      (∀ name, name ∈ m.map Prod.fst ↔ name ∈ hs.map Prod.fst) := by
  have hget : ∀ name, mapGet (hs.foldl (fun m kv => mapSet m kv.1 kv.2) []) name =
      lastValue hs name := by
    intro name
    rw [mapGet_foldl_mapSet]
    cases lastValue hs name <;> rfl
  refine ⟨hs.foldl (fun m kv => mapSet m kv.1 kv.2) [], ?_, hget, ?_, ?_⟩
  · rw [parseHTTPHeaders_eq_loop ((headerBlock hs ++ rest).length + hs.length + 1) _
      (by simp only; omega)]
    exact parseHTTPHeadersLoop_block hs rest final hok _ (by omega) []
  · exact foldl_mapSet_keys_nodup hs (fun v => v) [] (by simp)
  · intro name
    constructor
    · intro hin
      obtain ⟨⟨k, v⟩, hkv, rfl⟩ := List.mem_map.1 hin
      by_contra hnot
      have hnone : lastValue hs k = none := lastValue_none hs k hnot
      have hnd := foldl_mapSet_keys_nodup hs (fun v => v) [] (by simp)
      have hsome := mapGet_of_mem _ k v hnd hkv
      rw [hget, hnone] at hsome
      cases hsome
    · intro hname
      obtain ⟨v, hv⟩ := lastValue_isSome hs name hname
      have hg := hget name
      rw [hv] at hg
      exact List.mem_map.2 ⟨(name, v), mapGet_mem _ _ _ hg, rfl⟩

theorem duplicate_header_last_wins_witness :
    ∃ m, parseHTTPHeaders
          { data := headerBlock [(ascii "X", ascii "1"), (ascii "Y", ascii "3"),
              (ascii "X", ascii "2")] ++ [], final := .EOF } =
        .ok (m, { data := [], final := .EOF }) ∧
      (∀ name, mapGet m name =
        lastValue [(ascii "X", ascii "1"), (ascii "Y", ascii "3"), (ascii "X", ascii "2")] name) ∧
      (m.map Prod.fst).Nodup ∧
      (∀ name, name ∈ m.map Prod.fst ↔ name ∈ [(ascii "X", ascii "1"), (ascii "Y", ascii "3"),
          (ascii "X", ascii "2")].map Prod.fst) :=
  duplicate_header_last_wins
    [(ascii "X", ascii "1"), (ascii "Y", ascii "3"), (ascii "X", ascii "2")] [] .EOF
    (by decide)

/-- C20, counterexample. The header section with the lines `X: 1` and `X: 2` parses to
the map that holds `X` with the value "2", the value of the second line, not
"1", the value of the first. -/
theorem duplicate_header_not_first :
    parseHTTPHeaders { data := ascii "X: 1\r\nX: 2\r\n\r\n", final := .EOF } =
      .ok ([(ascii "X", ascii "2")], { data := [], final := .EOF }) ∧
    mapGet [(ascii "X", ascii "2")] (ascii "X") ≠ some (ascii "1") := by
  decide

/-! ## The demo server -/

theorem demo_handlers (sortFunc : SortFunc) (k : Str) :
    mapGet (demoServer sortFunc).handlers k =
      if k = ascii "/" then some RootHandler
      else if k = ascii "/user-agent" then some UserAgentHandler
      else if k = ascii "/echo/" then some EchoHandler
      else none := by
  unfold demoServer
  rw [handlers_registerAll]
  simp only [firstRegistered, List.find?]
  by_cases h1 : ascii "/" = k
  · subst h1; rfl
  · by_cases h2 : ascii "/user-agent" = k
    · subst h2; rfl
    · by_cases h3 : ascii "/echo/" = k
      · subst h3; rfl
      · have h1' : ¬ k = ascii "/" := fun e => h1 e.symm
        have h2' : ¬ k = ascii "/user-agent" := fun e => h2 e.symm
        have h3' : ¬ k = ascii "/echo/" := fun e => h3 e.symm
        simp [h1, h2, h3, h1', h2', h3']

theorem demo_wild (sortFunc : SortFunc) (hs : SortFuncOK sortFunc) (p : Str) :
    p ∈ (demoServer sortFunc).wildPatterns ↔ p = ascii "/" ∨ p = ascii "/echo/" := by
  obtain ⟨_, hmem, _⟩ := RouteInv_of_Reachable sortFunc hs _
    (Reachable_registerAll sortFunc (ascii "localhost:4221")
      [(ascii "/", RootHandler), (ascii "/user-agent", UserAgentHandler),
       (ascii "/echo/", EchoHandler)])
  have hm := hmem p
  unfold demoServer
  rw [hm]
  have hd := demo_handlers sortFunc p
  unfold demoServer at hd
  rw [hd]
  by_cases h1 : p = ascii "/"
  · subst h1; simp; decide
  · by_cases h2 : p = ascii "/user-agent"
    · subst h2; simp; decide
    · by_cases h3 : p = ascii "/echo/"
      · subst h3; simp; decide
      · simp [h1, h2, h3]

theorem demo_findHandler_echo (sortFunc : SortFunc) (hs : SortFuncOK sortFunc)
    (request : Request) (hpre : ascii "/echo/" <+: request.Path) :
    findHandler (demoServer sortFunc) request = some EchoHandler := by
  have hlen : 6 ≤ request.Path.length := by
    have := hpre.length_le
    simpa using this
  by_cases hex : request.Path = ascii "/echo/"
  · apply findHandler_of_mapGet
    rw [demo_handlers, hex]
    rfl
  · have h1 : request.Path ≠ ascii "/" := by
      intro e; rw [e] at hlen; simp [ascii] at hlen
    have h2 : request.Path ≠ ascii "/user-agent" := by
      intro e; rw [e] at hpre; revert hpre; decide
    obtain ⟨_, _, hsorted⟩ := RouteInv_of_Reachable sortFunc hs _
      (Reachable_registerAll sortFunc (ascii "localhost:4221")
        [(ascii "/", RootHandler), (ascii "/user-agent", UserAgentHandler),
         (ascii "/echo/", EchoHandler)])
    have hw := findWild_longest (demoServer sortFunc).handlers request.Path (ascii "/echo/")
      (demoServer sortFunc).wildPatterns hsorted
      ((demo_wild sortFunc hs _).2 (Or.inr rfl)) hpre (by
        intro q hq _
        rcases (demo_wild sortFunc hs q).1 hq with e | e <;> subst e <;> decide)
    unfold findHandler
    rw [demo_handlers, if_neg h1, if_neg h2, if_neg hex]
    simp only [hw]
    rw [demo_handlers]
    rfl

theorem demo_findHandler_other (sortFunc : SortFunc) (hs : SortFuncOK sortFunc)
    (request : Request) (hpre : ¬ ascii "/echo/" <+: request.Path) :
    findHandler (demoServer sortFunc) request = some RootHandler ∨
    findHandler (demoServer sortFunc) request = some UserAgentHandler ∨
    findHandler (demoServer sortFunc) request = some Default404Handler := by
  have hex : request.Path ≠ ascii "/echo/" := by
    intro e; exact hpre (e ▸ List.prefix_refl _)
  by_cases h1 : request.Path = ascii "/"
  · left
    apply findHandler_of_mapGet
    rw [demo_handlers, if_pos h1]
  · by_cases h2 : request.Path = ascii "/user-agent"
    · right; left
      apply findHandler_of_mapGet
      rw [demo_handlers, if_neg h1, if_pos h2]
    · obtain ⟨_, _, hsorted⟩ := RouteInv_of_Reachable sortFunc hs _
        (Reachable_registerAll sortFunc (ascii "localhost:4221")
          [(ascii "/", RootHandler), (ascii "/user-agent", UserAgentHandler),
           (ascii "/echo/", EchoHandler)])
      unfold findHandler
      rw [demo_handlers, if_neg h1, if_neg h2, if_neg hex]
      by_cases hroot : ascii "/" <+: request.Path
      · left
        have hw := findWild_longest (demoServer sortFunc).handlers request.Path (ascii "/")
          (demoServer sortFunc).wildPatterns hsorted
          ((demo_wild sortFunc hs _).2 (Or.inl rfl)) hroot (by
            intro q hq hqp
            rcases (demo_wild sortFunc hs q).1 hq with e | e
            · subst e; exact le_refl _
            · subst e; exact absurd hqp hpre)
        simp only [hw]
        rw [demo_handlers]
        rfl
      · right; right
        have hw := findWild_none (demoServer sortFunc).handlers request.Path
          (demoServer sortFunc).wildPatterns (by
            intro q hq hqp
            rcases (demo_wild sortFunc hs q).1 hq with e | e
            · subst e; exact hroot hqp
            · subst e; exact hpre hqp)
        simp only [hw]

theorem EchoHandler_ne :
    EchoHandler ≠ RootHandler ∧ EchoHandler ≠ UserAgentHandler ∧
      EchoHandler ≠ Default404Handler := by
  have key : ∀ h : Handler, (h emptyRequest (InitResponse (NewTCPServer []))).isSome = true →
      EchoHandler ≠ h := by
    intro h hh e
    rw [← e] at hh
    revert hh
    decide
  exact ⟨key _ (by rfl), key _ (by rfl), key _ (by rfl)⟩

theorem EchoHandler_of_prefix (request : Request) (response : Response) (sfx : Str)
    (h : request.Path = ascii "/echo/" ++ sfx) :
    EchoHandler request response = some { response with Body := sfx } := by
  have hlen : ¬ request.Path.length < 6 := by
    rw [h]; simp [ascii]
  have hdrop : request.Path.drop 6 = sfx := by
    rw [h]
    have : (ascii "/echo/").length = 6 := by decide
    rw [← this, List.drop_left]
  unfold EchoHandler
  rw [if_neg hlen, hdrop]

/-- C16. On the route table of the demo program `findHandler` returns `EchoHandler`
exactly for the paths that start with `/echo/`, so the slice `Path[6:]` in
`EchoHandler` is in range whenever that handler is called.  For a request with
path `/echo/` followed by `s` the response written has the body `s` and the
`Content-Length` header with the decimal byte length of `s`. -/
theorem echo_handler_in_range (sortFunc : SortFunc) (hs : SortFuncOK sortFunc) :
    (∀ request : Request, findHandler (demoServer sortFunc) request = some EchoHandler ↔
      ascii "/echo/" <+: request.Path) ∧
    (∀ (request : Request) (response : Response),
      findHandler (demoServer sortFunc) request = some EchoHandler →
      6 ≤ request.Path.length ∧
      EchoHandler request response = some { response with Body := request.Path.drop 6 }) ∧
    (∀ (order : RangeOrder) (now : Str) (writeErr : Option GoErr) (conn rd : Reader)
      (request : Request) (sfx : Str),
      ReadRequest conn = .ok (request, rd) → request.Path = ascii "/echo/" ++ sfx →
      ∃ (resp : Response) (rest : List Event),
        handleConn order now writeErr (demoServer sortFunc) conn =
          .invoke request.Path :: .write (resp.String order) :: rest ∧
        resp.Body = sfx ∧
        (ascii "\r\n" ++ sfx) <:+ resp.String order ∧
        mapGet (entries resp.Headers) (ascii "Content-Length") =
          some ((Nat.repr sfx.length).toList.map Char.toNat)) := by
  have hiff : ∀ request : Request,
      findHandler (demoServer sortFunc) request = some EchoHandler ↔
        ascii "/echo/" <+: request.Path := by
    intro request
    constructor
    · intro hf
      by_contra hpre
      obtain ⟨n1, n2, n3⟩ := EchoHandler_ne
      rcases demo_findHandler_other sortFunc hs request hpre with h | h | h
      · rw [hf] at h; exact n1 (Option.some.inj h)
      · rw [hf] at h; exact n2 (Option.some.inj h)
      · rw [hf] at h; exact n3 (Option.some.inj h)
    · exact demo_findHandler_echo sortFunc hs request
  refine ⟨hiff, ?_, ?_⟩
  · intro request response hf
    obtain ⟨sfx, hsfx⟩ := (hiff request).1 hf
    have h := EchoHandler_of_prefix request response sfx hsfx.symm
    have hdrop : request.Path.drop 6 = sfx := by
      rw [← hsfx]
      have : (ascii "/echo/").length = 6 := by decide
      rw [← this, List.drop_left]
    refine ⟨?_, ?_⟩
    · rw [← hsfx]; simp [ascii]
    · rw [h, hdrop]
  · intro order now writeErr conn rd request sfx hread hpath
    have hf := (hiff request).2 ⟨sfx, hpath.symm⟩
    obtain ⟨r0, hinit, _, _⟩ := initialResponse_some (demoServer sortFunc) request
    have hrun := EchoHandler_of_prefix request r0 sfx hpath
    have hev := handleConn_ok order now writeErr (demoServer sortFunc) conn rd request
      EchoHandler r0 { r0 with Body := sfx } hread hf hinit hrun
    obtain ⟨m, hm, hcl⟩ := Prep_headers now { r0 with Body := sfx }
    refine ⟨Response.Prep now { r0 with Body := sfx }, _, hev, rfl, ?_, ?_⟩
    · rw [String_eq_wireFormat]
      unfold wireFormat
      have hcrlf : ascii "\r\n" = CRLF := by decide
      rw [hcrlf, List.append_assoc]
      exact List.suffix_append _ _
    · rw [hm]
      exact hcl

theorem echo_handler_in_range_witness :
    ∃ (resp : Response) (rest : List Event),
      handleConn id (ascii "now") none (demoServer insertionSortCmpFunc)
        { data := ascii "GET /echo/abc HTTP/1.1\r\n\r\n", final := .EOF } =
          .invoke (ascii "/echo/abc") :: .write (resp.String id) :: rest ∧
        resp.Body = ascii "abc" ∧
        (ascii "\r\n" ++ ascii "abc") <:+ resp.String id ∧
        mapGet (entries resp.Headers) (ascii "Content-Length") = some (ascii "3") :=
  (echo_handler_in_range insertionSortCmpFunc SortFuncOK_insertionSortCmpFunc).2.2
    id (ascii "now") none
    { data := ascii "GET /echo/abc HTTP/1.1\r\n\r\n", final := .EOF }
    { data := [], final := .EOF }
    { Method := ascii "GET", Path := ascii "/echo/abc", HTTPVersion := ascii "HTTP/1.1",
      Body := [], Headers := [] }
    (ascii "abc") (by rfl) (by decide)

/-! ## Decimal numbers -/

theorem digitChar_toNat : ∀ d, d < 10 → (Nat.digitChar d).toNat = 48 + d := by decide

theorem toDigitsCore_ne_nil (fuel n : Nat) (ds : List Char) (h : ds ≠ []) :
    Nat.toDigitsCore 10 fuel n ds ≠ [] := by
  induction fuel generalizing n ds with
  | zero => exact h
  | succ fuel ih =>
    unfold Nat.toDigitsCore
    simp only
    split_ifs
    · exact List.cons_ne_nil _ _
    · exact ih _ _ (List.cons_ne_nil _ _)

theorem toDigits_ne_nil (n : Nat) : Nat.toDigits 10 n ≠ [] := by
  unfold Nat.toDigits Nat.toDigitsCore
  simp only
  split_ifs
  · exact List.cons_ne_nil _ _
  · exact toDigitsCore_ne_nil _ _ _ (List.cons_ne_nil _ _)

theorem toDigitsCore_digits (fuel n : Nat) (ds : List Char)
    (h : ∀ c ∈ ds, 48 ≤ c.toNat ∧ c.toNat ≤ 57) :
    ∀ c ∈ Nat.toDigitsCore 10 fuel n ds, 48 ≤ c.toNat ∧ c.toNat ≤ 57 := by
  induction fuel generalizing n ds with
  | zero => exact h
  | succ fuel ih =>
    have hd : 48 ≤ (Nat.digitChar (n % 10)).toNat ∧ (Nat.digitChar (n % 10)).toNat ≤ 57 := by
      rw [digitChar_toNat _ (Nat.mod_lt _ (by omega))]
      have := Nat.mod_lt n (show 0 < 10 by omega)
      omega
    have h' : ∀ c ∈ Nat.digitChar (n % 10) :: ds, 48 ≤ c.toNat ∧ c.toNat ≤ 57 := by
      intro c hc
      rcases List.mem_cons.1 hc with e | e
      · rw [e]; exact hd
      · exact h c e
    unfold Nat.toDigitsCore
    simp only
    split_ifs
    · exact h'
    · exact ih _ _ h'

theorem FormatUint_digits (n : Nat) : ∀ c ∈ FormatUint n, 48 ≤ c ∧ c ≤ 57 := by
  intro c hc
  unfold FormatUint at hc
  obtain ⟨ch, hch, rfl⟩ := List.mem_map.1 hc
  exact toDigitsCore_digits _ _ [] (by simp) ch hch

theorem parseUint_digit (c : Nat) (cs : Str) (n : Nat) (hc : 48 ≤ c ∧ c ≤ 57)
    (hn : n * 10 + (c - 48) ≤ 2 ^ 64 - 1) :
    parseUint (c :: cs) n = parseUint cs (n * 10 + (c - 48)) := by
  have h1 : ¬ (c < 48 ∨ 57 < c) := by omega
  have h2 : ¬ (2 ^ 64 - 1 < n * 10 + (c - 48)) := by omega
  simp only [parseUint, h1, h2, if_false]

theorem parseUint_toDigitsCore (fuel n : Nat) (ds : List Char) (hf : n < fuel)
    (hn : n ≤ 2 ^ 64 - 1) :
    parseUint ((Nat.toDigitsCore 10 fuel n ds).map Char.toNat) 0 =
      parseUint (ds.map Char.toNat) n := by
  induction fuel generalizing n ds with
  | zero => omega
  | succ fuel ih =>
    have hmod := Nat.mod_lt n (show 0 < 10 by omega)
    have hd := digitChar_toNat _ hmod
    have hdiv := Nat.div_add_mod n 10
    unfold Nat.toDigitsCore
    simp only
    split_ifs with h0
    · rw [List.map_cons, parseUint_digit _ _ _ (by omega) (by omega)]
      congr 1
      omega
    · rw [ih (n / 10) _ (by omega) (by omega), List.map_cons,
        parseUint_digit _ _ _ (by omega) (by omega)]
      congr 1
      omega

theorem parseUint_FormatUint (n : Nat) (hn : n ≤ 2 ^ 64 - 1) :
    parseUint (FormatUint n) 0 = .ok n := by
  unfold FormatUint Nat.toDigits
  rw [parseUint_toDigitsCore _ _ _ (by omega) hn]
  rfl

theorem Atoi_FormatUint (n : Nat) (hn : n < 2 ^ 63) : Atoi (FormatUint n) = .ok (n : Int) := by
  have hne : FormatUint n ≠ [] := by
    unfold FormatUint
    simpa using toDigits_ne_nil n
  have hp := parseUint_FormatUint n (by omega)
  have hdig := FormatUint_digits n
  cases hs : FormatUint n with
  | nil => exact absurd hs hne
  | cons c rest =>
    rw [hs] at hp hdig
    have hc := hdig c (List.mem_cons_self _ _)
    have h1 : ¬ (c = 45 ∨ c = 43) := by omega
    have h2 : ¬ (c = 45) := by omega
    have h3 : ¬ ((n : Int) < -(2 ^ 63 : Int) ∨ (2 ^ 63 : Int) - 1 < (n : Int)) := by
      have : (n : Int) < 2 ^ 63 := by exact_mod_cast hn
      omega
    have h4 : ¬ (c = 43) := by omega
    simp only [Atoi, h2, h4, or_self, if_false, List.cons_ne_nil c rest, hp, h3]

theorem FormatUint_no_separator (n : Nat) : ¬ ascii ": " <:+: FormatUint n := by
  rintro ⟨a, b, h⟩
  have hmem : 58 ∈ FormatUint n := by
    rw [← h]
    simp [ascii]
  have := FormatUint_digits n 58 hmem
  omega

/-! ## Round trip -/

theorem ReadRequest_eq_readBody (conn reader1 reader2 : Reader) (req1 : Request)
    (headers : GoMap Str)
    (hstart : parseHTTPStartLine conn emptyRequest = .ok (req1, reader1))
    (hhead : parseHTTPHeaders reader1 = .ok (headers, reader2)) :
    ReadRequest conn =
      match readBody headers reader2 with
      | .panic => .panic
      | .error err => .error err
      | .ok (buf, reader) => .ok ({ req1 with Headers := headers, Body := buf }, reader) := by
  have hb := (parseHTTPStartLine_keeps conn reader1 emptyRequest req1 hstart).1
  rw [ReadRequest_of_headers conn reader1 reader2 req1 headers hstart hhead]
  unfold readBody
  cases hg : mapGet headers (ascii "Content-Length") with
  | none =>
    have : req1.Body = [] := hb
    cases req1
    simp_all
  | some v =>
    simp only
    cases ha : Atoi v with
    | panic => rfl
    | error e => rfl
    | ok n =>
      simp only
      split_ifs
      · rfl
      · rfl

theorem Split_name (name value : Str) (hn : ¬ ascii ": " <:+: name) :
    Split (name ++ ascii ": " ++ value) (ascii ": ") = name :: Split value (ascii ": ") := by
  have hsep : ascii ": " = [58, 32] := rfl
  rw [hsep] at hn ⊢
  have h1 := splitAux_first [58, 32] name value [] (List.cons_ne_nil _ _) (by
    intro a1 a2 e hne hp
    obtain ⟨y, a2', rfl⟩ := List.exists_cons_of_ne_nil hne
    cases a2' with
    | nil => simp at hp
    | cons z a2'' =>
      have h2 : [58, 32] <+: y :: z :: (a2'' ++ [58, 32] ++ value) := by simpa using hp
      have hy := (List.cons_prefix_cons.1 h2).1
      have hz := (List.cons_prefix_cons.1 (List.cons_prefix_cons.1 h2).2).1
      apply hn
      rw [e, ← hy, ← hz]
      exact ⟨a1, a2'', by simp⟩)
  unfold Split
  rw [h1]
  simp

theorem splitAux_ne_nil (sep s : Str) (skip : Nat) (cur : Str) :
    splitAux sep s skip cur ≠ [] := by
  induction s generalizing skip cur with
  | nil => simp [splitAux]
  | cons c cs ih =>
    cases skip with
    | succ k => rw [splitAux_cons_skip]; exact ih _ _
    | zero =>
      by_cases h : sep.isPrefixOf (c :: cs) = true
      · rw [splitAux_cons_hit _ _ _ _ h]; exact List.cons_ne_nil _ _
      · rw [splitAux_cons_miss _ _ _ _ (Bool.eq_false_iff.2 h)]; exact ih _ _

theorem Split_name_stored (name value : Str) (hn : ¬ ascii ": " <:+: name) :
    ∃ tl, Split (name ++ ascii ": " ++ value) (ascii ": ") = name :: storedValue value :: tl := by
  rw [Split_name name value hn]
  unfold storedValue
  cases hs : Split value (ascii ": ") with
  | nil => exact absurd hs (splitAux_ne_nil _ _ _ _)
  | cons p tl => exact ⟨tl, rfl⟩

theorem storedValue_of_no_separator (value : Str) (h : ¬ ascii ": " <:+: value) :
    storedValue value = value := by
  unfold storedValue Split
  rw [splitAux_no_sep _ _ _ h]
  rfl

theorem parseHTTPHeadersLoop_stored (hs : List (Str × Str)) (rest : Str) (final : GoErr)
    (hok : ∀ kv ∈ hs, 10 ∉ kv.1 ∧ 10 ∉ kv.2 ∧ ¬ ascii ": " <:+: kv.1)
    (fuel : Nat) (hf : hs.length < fuel) (headers : GoMap Str) :
    parseHTTPHeadersLoop fuel { data := headerBlock hs ++ rest, final := final } headers =
      .ok (hs.foldl (fun m kv => mapSet m kv.1 (storedValue kv.2)) headers,
        { data := rest, final := final }) := by
  have hcrlf : ascii "\r\n" = [13, 10] := rfl
  have hsep : ascii ": " = [58, 32] := rfl
  induction hs generalizing fuel headers with
  | nil =>
    obtain ⟨f, rfl⟩ : ∃ f, fuel = f + 1 := ⟨fuel - 1, by simp at hf; omega⟩
    have := parseHTTPHeadersLoop_blank f rest final headers
    simpa [headerBlock, hcrlf] using this
  | cons kv hs ih =>
    obtain ⟨f, rfl⟩ : ∃ f, fuel = f + 1 := ⟨fuel - 1, by simp at hf; omega⟩
    obtain ⟨h1, h2, h3⟩ := hok kv (List.mem_cons_self _ _)
    have hl : (10 : Nat) ∉ kv.1 ++ ascii ": " ++ kv.2 := by
      simp [h1, h2, hsep]
    have hne : kv.1 ++ ascii ": " ++ kv.2 ≠ [] := by simp [hsep]
    have hstep := parseHTTPHeadersLoop_line f (kv.1 ++ ascii ": " ++ kv.2)
      (headerBlock hs ++ rest) final headers hl hne
    obtain ⟨tl, htl⟩ := Split_name_stored kv.1 kv.2 h3
    rw [htl] at hstep
    simp only at hstep
    have hdata : headerBlock (kv :: hs) ++ rest =
        kv.1 ++ ascii ": " ++ kv.2 ++ [13, 10] ++ (headerBlock hs ++ rest) := by
      simp [headerBlock, headerLine, hcrlf, List.append_assoc]
    rw [hdata, hstep, ih (fun kv' hkv' => hok kv' (List.mem_cons_of_mem _ hkv')) f
      (by simp at hf; omega)]
    rfl

theorem lastValue_of_mem_nodup (hs : List (Str × Str)) (k v : Str)
    (hnd : (hs.map Prod.fst).Nodup) (h : (k, v) ∈ hs) : lastValue hs k = some v := by
  induction hs with
  | nil => cases h
  | cons kv hs ih =>
    rw [List.map_cons, List.nodup_cons] at hnd
    rw [lastValue_cons]
    rcases List.mem_cons.1 h with e | e
    · subst e
      rw [lastValue_none hs k hnd.1]
      simp
    · rw [ih hnd.2 e]

theorem Prep_keys_nodup (now : Str) (r : Response)
    (hnd : ((entries r.Headers).map Prod.fst).Nodup) :
    ((entries (r.Prep now).Headers).map Prod.fst).Nodup := by
  unfold Response.Prep
  simp only [entries]
  apply keys_mapSet_nodup
  cases hH : r.Headers with
  | none =>
    simp only
    cases hd : mapGet ([] : GoMap Str) (ascii "Date") with
    | none => exact keys_mapSet_nodup _ _ _ (by simp)
    | some d => simp
  | some m =>
    rw [hH] at hnd
    simp only
    cases hd : mapGet m (ascii "Date") with
    | none => exact keys_mapSet_nodup _ _ _ hnd
    | some d => exact hnd

theorem String_eq_statusLine (order : RangeOrder) (r : Response) :
    r.String order = statusLine r ++ (headerBlock (order (entries r.Headers)) ++ r.Body) := by
  have hcrlf : ascii "\r\n" = CRLF := by decide
  have hl : (fun kv : Str × Str => kv.1 ++ ascii ": " ++ kv.2 ++ CRLF) = headerLine := by
    funext kv
    unfold headerLine
    rw [hcrlf]
  rw [String_eq_wireFormat]
  unfold wireFormat statusLine headerBlock
  rw [hl, hcrlf]
  simp only [List.append_assoc]

theorem ReadFull_all (body : Str) (final : GoErr) :
    ReadFull { data := body, final := final } body.length =
      .ok (body, { data := [], final := final }) := by
  simp [ReadFull]

theorem readBody_FormatUint (headers : GoMap Str) (body : Str) (final : GoErr)
    (hcl : mapGet headers (ascii "Content-Length") = some (FormatUint body.length))
    (hlen : (body.length : Int) ≤ maxAlloc) :
    readBody headers { data := body, final := final } =
      .ok (body, { data := [], final := final }) := by
  have hmax : maxAlloc = 2 ^ 48 := rfl
  have hlt : body.length < 2 ^ 63 := by
    rw [hmax] at hlen
    have : (body.length : Int) < 2 ^ 63 := by omega
    exact_mod_cast this
  have hcond : ¬ ((body.length : Int) < 0 ∨ maxAlloc < (body.length : Int)) := by omega
  unfold readBody
  rw [hcl]
  simp only [Atoi_FormatUint _ hlt, hcond, if_false, Int.toNat_ofNat]
  exact ReadFull_all body final

/-- C15. For a response after `Prep` whose header names and values hold no LF and whose
header names do not hold the separator, `parseHTTPHeaders` on the text of
`String` after its status line succeeds and leaves the reader at the body;
the `Content-Length` header it returns is the decimal byte length of the body,
and the body rule of `ReadRequest` then reads exactly the body, with no byte
left over.  (A Go map holds each key once, and a Go string is not longer than
the largest allocation.) -/
theorem round_trip (order : RangeOrder) (hord : RangeOrderOK order) (now : Str)
    (r0 : Response) (final : GoErr)
    (hnd : ((entries r0.Headers).map Prod.fst).Nodup)
    (hok : ∀ kv ∈ entries (r0.Prep now).Headers,
      10 ∉ kv.1 ∧ 10 ∉ kv.2 ∧ ¬ ascii ": " <:+: kv.1)
    (hlen : (r0.Body.length : Int) ≤ maxAlloc) :
    ∃ headers,
      parseHTTPHeaders
          { data := ((r0.Prep now).String order).drop (statusLine (r0.Prep now)).length,
            final := final } =
        .ok (headers, { data := (r0.Prep now).Body, final := final }) ∧
      mapGet headers (ascii "Content-Length") =
        some ((Nat.repr (r0.Prep now).Body.length).toList.map Char.toNat) ∧
      readBody headers { data := (r0.Prep now).Body, final := final } =
        .ok ((r0.Prep now).Body, { data := [], final := final }) := by
  have hbody : (r0.Prep now).Body = r0.Body := rfl
  have hperm := hord (entries (r0.Prep now).Headers)
  have hok' : ∀ kv ∈ order (entries (r0.Prep now).Headers),
      10 ∉ kv.1 ∧ 10 ∉ kv.2 ∧ ¬ ascii ": " <:+: kv.1 :=
    fun kv hkv => hok kv (hperm.mem_iff.1 hkv)
  have hdata : ((r0.Prep now).String order).drop (statusLine (r0.Prep now)).length =
      headerBlock (order (entries (r0.Prep now).Headers)) ++ r0.Body := by
    rw [String_eq_statusLine, List.drop_left]
    rfl
  have hparse : parseHTTPHeaders
      { data := headerBlock (order (entries (r0.Prep now).Headers)) ++ r0.Body,
        final := final } =
      .ok ((order (entries (r0.Prep now).Headers)).foldl
        (fun m kv => mapSet m kv.1 (storedValue kv.2)) [],
        { data := r0.Body, final := final }) := by
    rw [parseHTTPHeaders_eq_loop
      ((headerBlock (order (entries (r0.Prep now).Headers)) ++ r0.Body).length +
        (order (entries (r0.Prep now).Headers)).length + 1) _ (by simp only; omega)]
    exact parseHTTPHeadersLoop_stored _ _ _ hok' _ (by omega) []
  have hcl : mapGet ((order (entries (r0.Prep now).Headers)).foldl
      (fun m kv => mapSet m kv.1 (storedValue kv.2)) []) (ascii "Content-Length") =
      some (FormatUint r0.Body.length) := by
    obtain ⟨m, hm, hg⟩ := Prep_headers now r0
    have hmem : (ascii "Content-Length", FormatUint r0.Body.length) ∈
        order (entries (r0.Prep now).Headers) := by
      rw [hperm.mem_iff, hm]
      exact mapGet_mem _ _ _ hg
    have hnd' : (((order (entries (r0.Prep now).Headers)).map
        (fun kv => (kv.1, storedValue kv.2))).map Prod.fst).Nodup := by
      rw [List.map_map]
      have : (Prod.fst ∘ fun kv : Str × Str => (kv.1, storedValue kv.2)) = Prod.fst := rfl
      rw [this]
      exact (hperm.map Prod.fst).nodup_iff.2 (Prep_keys_nodup now r0 hnd)
    have hmem' : (ascii "Content-Length", FormatUint r0.Body.length) ∈
        (order (entries (r0.Prep now).Headers)).map (fun kv => (kv.1, storedValue kv.2)) := by
      refine List.mem_map.2 ⟨_, hmem, ?_⟩
      simp only [storedValue_of_no_separator _ (FormatUint_no_separator _)]
    have hfold : (order (entries (r0.Prep now).Headers)).foldl
        (fun m kv => mapSet m kv.1 (storedValue kv.2)) [] =
        ((order (entries (r0.Prep now).Headers)).map
          (fun kv => (kv.1, storedValue kv.2))).foldl (fun m kv => mapSet m kv.1 kv.2) [] := by
      rw [List.foldl_map]
    rw [hfold, mapGet_foldl_mapSet, lastValue_of_mem_nodup _ _ _ hnd' hmem']
  refine ⟨(order (entries (r0.Prep now).Headers)).foldl
    (fun m kv => mapSet m kv.1 (storedValue kv.2)) [], ?_, ?_, ?_⟩
  · rw [hdata, hbody]
    exact hparse
  · rw [hbody]
    exact hcl
  · rw [hbody]
    exact readBody_FormatUint _ _ _ hcl hlen

theorem round_trip_witness :
    ∃ headers,
      parseHTTPHeaders
          { data := ((Response.Prep (ascii "now")
                { HTTPVersion := ascii "HTTP/1.1", StatusCode := 200,
                  ReasonPhrase := ascii "OK",
                  Headers := some [(ascii "Server", ascii "myhttp/0.0.1")],
                  Body := [0xE2, 0x82, 0xAC, 97] }).String id).drop
              (statusLine (Response.Prep (ascii "now")
                { HTTPVersion := ascii "HTTP/1.1", StatusCode := 200,
                  ReasonPhrase := ascii "OK",
                  Headers := some [(ascii "Server", ascii "myhttp/0.0.1")],
                  Body := [0xE2, 0x82, 0xAC, 97] })).length,
            final := .EOF } =
        .ok (headers, { data := [0xE2, 0x82, 0xAC, 97], final := .EOF }) ∧
      mapGet headers (ascii "Content-Length") = some (ascii "4") ∧
      readBody headers { data := [0xE2, 0x82, 0xAC, 97], final := .EOF } =
        .ok ([0xE2, 0x82, 0xAC, 97], { data := [], final := .EOF }) :=
  round_trip id (fun m => List.Perm.refl m) (ascii "now")
    { HTTPVersion := ascii "HTTP/1.1", StatusCode := 200, ReasonPhrase := ascii "OK",
      Headers := some [(ascii "Server", ascii "myhttp/0.0.1")],
      Body := [0xE2, 0x82, 0xAC, 97] } .EOF (by decide) (by decide) (by decide)

end MyHTTP
